import Mathlib

/-!
Verification of the tic-tac-toe logic core of the repository: board state,
win evaluator, the two move selectors (minimax and heuristic) and the game
state machine, as a shallow embedding of the JavaScript sources.

The board is a list of nine cells; the two marker symbols `'X'`/`'O'` and
the empty string `''` are the three values of `Cell`.  JavaScript is an
eager (call-by-value) language, so the embedding forces intermediate
values (`strictInt`, `strictNat`, `strictBoard`) at the points where the
source binds them to variables or mutates them in place; the lemmas
`strictInt_eq`, `strictNat_eq` and `strictBoard_eq` show these helpers
are semantically transparent.
-/

set_option maxRecDepth 10000

namespace TTT

/-- Cells of the board: the marker `'X'`, the marker `'O'`, or the empty
string `''` (written `E`). -/
inductive Cell where
  | X
  | O
  | E
deriving DecidableEq, Fintype

open Cell

/-- Boards: the 9-element array of cells owned by the Gameboard module. -/
abbrev Board := List Cell

/-- Board value at creation and after `reset()`: nine empty cells. -/
def emptyBoard : Board := [E, E, E, E, E, E, E, E, E]

/-- Evaluation-order helper: forces an integer to a constructor before it
is duplicated, mirroring the eager evaluation of the source language. -/
def strictInt (v : Int) (k : Int → α) : α :=
  match v with
  | .ofNat n => k (.ofNat n)
  | .negSucc n => k (.negSucc n)

/-- Evaluation-order helper for natural numbers. -/
def strictNat (n : Nat) (k : Nat → α) : α :=
  match n with
  | 0 => k 0
  | m + 1 => k (m + 1)

/-- Evaluation-order helper for boards: forces the spine of the 9-cell
list, mirroring the in-place array mutation of the source. -/
def strictBoard (b : Board) (k : Board → α) : α :=
  match b with
  | c0 :: c1 :: c2 :: c3 :: c4 :: c5 :: c6 :: c7 :: c8 :: rest =>
      k (c0 :: c1 :: c2 :: c3 :: c4 :: c5 :: c6 :: c7 :: c8 :: rest)
  | other => k other

/-- The fixed table of the 8 winning index triples (3 rows, 3 columns,
2 diagonals) in the enumeration order of the source.  The source repeats
this constant in the AI module and in the Game Controller; both copies
are identical and are modeled by this single definition. -/
def winConditions : List (List Nat) :=
  [[0, 1, 2], [3, 4, 5], [6, 7, 8],
   [0, 3, 6], [1, 4, 7], [2, 5, 8],
   [0, 4, 8], [2, 4, 6]]

/-- Array read `board[i]` at a natural-number index (in the source all
boards have exactly 9 cells and every such read is in range). -/
def cellAt (board : Board) (i : Nat) : Cell := board.getD i E

/-- Win evaluator `checkWinner(board, marker)`: some winning triple is
fully occupied by `marker`.  The source repeats this identical function
in the AI module and (reading the current board and marker) in the Game
Controller; both are modeled by this definition. -/
def checkWinner (board : Board) (marker : Cell) : Bool :=
  winConditions.any fun condition =>
    condition.all fun index => cellAt board index == marker

namespace Gameboard

/-- Gameboard `setCell(index, marker)`: writes `marker` and returns `true`
iff `0 <= index < 9` and the cell is currently empty; otherwise returns
`false` and leaves the board unchanged.  The index is an integer, as in
the source. -/
def setCell (board : Board) (index : Int) (marker : Cell) : Bool × Board :=
  if 0 ≤ index ∧ index < 9 ∧ cellAt board index.toNat = E then
    (true, board.set index.toNat marker)
  else
    (false, board)

/-- Gameboard `getCell(index)`: the cell value for `0 <= index < 9`, and
the sentinel `null` (here `none`) for an out-of-range index. -/
def getCell (board : Board) (index : Int) : Option Cell :=
  if 0 ≤ index ∧ index < 9 then some (cellAt board index.toNat)
  else none

/-- Gameboard `reset()`: sets all 9 cells back to empty. -/
def reset (_board : Board) : Board := emptyBoard

/-- Gameboard `isFull()`: every cell is non-empty. -/
def isFull (board : Board) : Bool :=
  board.all fun cell => cell != E

end Gameboard

namespace AI

/-- Alias used inside the minimax AI module: `checkWinner(board, marker)`
is textually the same function as the shared win evaluator. -/
def checkWinner (board : Board) (marker : Cell) : Bool :=
  TTT.checkWinner board marker

/-- Minimax AI `isBoardFull(board)`: every cell is non-empty. -/
def isBoardFull (board : Board) : Bool :=
  board.all fun cell => cell != E

/-- Minimax AI `evaluate(board, computerMarker, playerMarker)`: 10 if the
computer has won, -10 if the player has won, 0 otherwise; the computer's
win is checked first. -/
def evaluate (board : Board) (computerMarker playerMarker : Cell) : Int :=
  if checkWinner board computerMarker then 10
  else if checkWinner board playerMarker then -10
  else 0

/-- The JavaScript `-Infinity` initial best score: a sentinel strictly
below every attainable minimax score. -/
def negInf : Int := -1000000

/-- The JavaScript `Infinity` initial best score: a sentinel strictly
above every attainable minimax score. -/
def posInf : Int := 1000000

/-- JavaScript `Math.max` on two scores. -/
def mathMax (a b : Int) : Int := if b ≤ a then a else b

/-- JavaScript `Math.min` on two scores. -/
def mathMin (a b : Int) : Int := if a ≤ b then a else b

/-- The index sequence `0, 1, ..., 8` of the source loops
`for (let i = 0; i < 9; i++)`. -/
def idx9 : List Nat := [0, 1, 2, 3, 4, 5, 6, 7, 8]

/-- The minimax recursion `minimax(board, depth, isMaximizing,
computerMarker, playerMarker)`.  A terminal board scores `10 - depth`
(computer win), `-10 + depth` (player win) or `0` (full board), with the
winning checks made before the full-board check; otherwise the loop over
`i = 0..8` tries every empty cell (make move, recurse, undo move) and
maximizes (computer ply) or minimizes (player ply) the score, starting
from the infinite sentinel.  The JavaScript recursion terminates because
each call fills one empty cell; the embedding makes this explicit with a
`fuel` argument that every caller instantiates above the number of empty
cells, so the `fuel = 0` fallback is never reached. -/
def minimax : Nat → Board → Nat → Bool → Cell → Cell → Int
  | fuel, board, depth, isMaximizing, computerMarker, playerMarker =>
    strictInt (evaluate board computerMarker playerMarker) fun score =>
    if score = 10 then score - depth
    else if score = -10 then score + depth
    else if isBoardFull board then 0
    else
      match fuel with
      | 0 => 0
      | fuel' + 1 =>
        if isMaximizing then
          idx9.foldl (fun bestScore i =>
            if cellAt board i == E then
              strictBoard (board.set i computerMarker) fun moved =>
              strictInt (minimax fuel' moved (depth + 1)
                  false computerMarker playerMarker) fun s =>
              strictInt bestScore fun best =>
              mathMax s best
            else bestScore) negInf
        else
          idx9.foldl (fun bestScore i =>
            if cellAt board i == E then
              strictBoard (board.set i playerMarker) fun moved =>
              strictInt (minimax fuel' moved (depth + 1)
                  true computerMarker playerMarker) fun s =>
              strictInt bestScore fun best =>
              mathMin s best
            else bestScore) posInf

/-- Minimax AI `getBestMove(board, computerMarker, playerMarker)`: copy
the board, try every empty cell in ascending index order `0..8`, score it
with `minimax(copy, 0, false, ...)`, and keep the strictly better score
(`score > bestScore`), so the first-found maximum wins; `bestMove` starts
as `null` (`none`) and `bestScore` as `-Infinity`. -/
def getBestMove (board : Board) (computerMarker playerMarker : Cell) :
    Option Nat :=
  let boardCopy := board
  let result := idx9.foldl (fun acc i =>
    if cellAt boardCopy i == E then
      strictBoard (boardCopy.set i computerMarker) fun moved =>
      strictInt (minimax 9 moved 0 false computerMarker playerMarker)
        fun score =>
      if score > acc.1 then (score, some i) else acc
    else acc) (negInf, (none : Option Nat))
  result.2

end AI

namespace HeuristicAI

/-- Heuristic AI `findWinningMove(board, marker)`: scan the 8 winning
triples in order; on the first triple holding exactly two `marker` cells
and one empty cell, return that empty index (first empty position in the
triple's listed order); otherwise `null` (`none`). -/
def findWinningMove (board : Board) (marker : Cell) : Option Nat :=
  winConditions.findSome? fun condition =>
    match condition with
    | [a, b, c] =>
      let values := [cellAt board a, cellAt board b, cellAt board c]
      let markerCount := values.countP fun v => v == marker
      let emptyCount := values.countP fun v => v == E
      if markerCount = 2 ∧ emptyCount = 1 then
        if cellAt board a == E then some a
        else if cellAt board b == E then some b
        else if cellAt board c == E then some c
        else none
      else none
    | _ => none

/-- Heuristic AI `getBestMove(board, computerMarker, playerMarker)`:
priority chain — complete an own winning triple, block the opponent's,
take the center (index 4), take a random empty corner, take a random
empty edge, else `null`.  The call `Math.floor(Math.random() * length)`
is modeled by the injected random source `randIdx`, which for a list of
length `n > 0` is expected to produce an index `< n`. -/
def getBestMove (randIdx : Nat → Nat) (board : Board)
    (computerMarker playerMarker : Cell) : Option Nat :=
  match findWinningMove board computerMarker with
  | some move => some move
  | none =>
    match findWinningMove board playerMarker with
    | some move => some move
    | none =>
      if cellAt board 4 == E then some 4
      else
        let corners := [0, 2, 6, 8]
        let availableCorners := corners.filter fun index =>
          cellAt board index == E
        if availableCorners.length > 0 then
          some (availableCorners.getD (randIdx availableCorners.length) 0)
        else
          let edges := [1, 3, 5, 7]
          let availableEdges := edges.filter fun index =>
            cellAt board index == E
          if availableEdges.length > 0 then
            some (availableEdges.getD (randIdx availableEdges.length) 0)
          else
            none

end HeuristicAI

/-- Player factory: a name paired with a marker. -/
structure Player where
  name : String
  marker : Cell
deriving DecidableEq

/-- Result object of `makeMove` and `makeComputerMove`.  The source
returns plain objects with optional fields; absent fields are `none`
(`message` appears only on failures of `makeMove`, `gameOver` and
`winner` only on success, and `winner` only when the game ended). -/
structure MoveResult where
  success : Bool
  message : Option String
  gameOver : Option Bool
  winner : Option (Option Player)
deriving DecidableEq

/-- The mutable state of the GameController module. -/
structure GameState where
  board : Board
  player1 : Player
  player2 : Player
  currentPlayer : Player
  gameOver : Bool
  winner : Option Player
  vsComputer : Bool
  computerMarker : Cell
deriving DecidableEq

namespace GameController

/-- GameController `initialize(name1, name2, isVsComputer)`: player 1 gets
marker `'X'` (name defaulting to "Player 1"), player 2 gets marker `'O'`
(the computer when `isVsComputer`, otherwise the name defaulting to
"Player 2"); the current player is player 1, the game-over flag and
winner are cleared and the board is reset.  The module-level
`computerMarker` variable is `'O'` initially and is only ever reassigned
to `'O'`, so it is `'O'` in every reachable state. -/
def initGame (name1 name2 : String) (isVsComputer : Bool) : GameState :=
  let player1 := Player.mk (if name1 = "" then "Player 1" else name1) Cell.X
  let player2 :=
    if isVsComputer then Player.mk "Computer" Cell.O
    else Player.mk (if name2 = "" then "Player 2" else name2) Cell.O
  { board := Gameboard.reset emptyBoard
    player1 := player1
    player2 := player2
    currentPlayer := player1
    gameOver := false
    winner := none
    vsComputer := isVsComputer
    computerMarker := Cell.O }

/-- GameController `switchPlayer()`: the current player becomes the other
player. -/
def switchPlayer (s : GameState) : GameState :=
  { s with currentPlayer :=
      if s.currentPlayer = s.player1 then s.player2 else s.player1 }

/-- GameController `makeMove(index)`: fails when the game is over, then
fails when the target cell is not empty; otherwise writes the current
player's marker and either ends the game with a winner, ends it as a
draw on a full board, or switches the current player. -/
def makeMove (s : GameState) (index : Int) : MoveResult × GameState :=
  if s.gameOver then
    (MoveResult.mk false (some "Game is over!") none none, s)
  else if Gameboard.getCell s.board index != some Cell.E then
    (MoveResult.mk false (some "Cell is already taken!") none none, s)
  else
    let board' := (Gameboard.setCell s.board index s.currentPlayer.marker).2
    let s' := { s with board := board' }
    if checkWinner s'.board s'.currentPlayer.marker then
      (MoveResult.mk true none (some true) (some (some s'.currentPlayer)),
       { s' with gameOver := true, winner := some s'.currentPlayer })
    else if Gameboard.isFull s'.board then
      (MoveResult.mk true none (some true) (some none),
       { s' with gameOver := true })
    else
      (MoveResult.mk true none (some false) none, switchPlayer s')

/-- GameController `isComputerTurn()`: versus-computer mode and the
current player's marker is the computer marker. -/
def isComputerTurn (s : GameState) : Bool :=
  s.vsComputer && s.currentPlayer.marker == s.computerMarker

/-- GameController `makeComputerMove()`: returns a bare failure when it
is not the computer's turn or the game is over; otherwise asks the
minimax AI for a move on the current board and applies it with
`makeMove`, returning a bare failure when the AI reports no move. -/
def makeComputerMove (s : GameState) : MoveResult × GameState :=
  if ¬ isComputerTurn s ∨ s.gameOver then
    (MoveResult.mk false none none none, s)
  else
    match AI.getBestMove s.board s.computerMarker s.player1.marker with
    | some move => makeMove s (move : Int)
    | none => (MoveResult.mk false none none none, s)

/-- Runs a list of moves through `makeMove`, requiring every move to
succeed; used to quantify over sequences of successful moves. -/
def runMoves (s : GameState) : List Int → Option GameState
  | [] => some s
  | index :: rest =>
    let step := makeMove s index
    if step.1.success then runMoves step.2 rest else none

end GameController

/-- Count of empty cells of a board. -/
def emptyCount (board : Board) : Nat :=
  board.countP fun cell => cell == E

/-- One complete game against the minimax computer, played functionally:
the opponent `'X'` moves first from `board` taking its moves from the
list `xs`; after every legal opponent move the computer `'O'` answers
with `AI.getBestMove` applied through a legal-move check.  The game stops
at the first win, full board, illegal move or end of `xs`, returning the
final board. -/
def playGame (board : Board) : List Nat → Board
  | [] => board
  | i :: rest =>
    if decide (i < 9) && cellAt board i == E then
      strictBoard (board.set i Cell.X) fun afterX =>
      if checkWinner afterX Cell.X then afterX
      else if Gameboard.isFull afterX then afterX
      else
        match AI.getBestMove afterX Cell.O Cell.X with
        | none => afterX
        | some m =>
          if decide (m < 9) && cellAt afterX m == E then
            strictBoard (afterX.set m Cell.O) fun afterO =>
            if checkWinner afterO Cell.O then afterO
            else if Gameboard.isFull afterO then afterO
            else playGame afterO rest
          else afterX
    else board

namespace Fast

/-- Bitmask refinement of the board: bit `i` of `maskOf board marker` is
set iff cell `i` holds `marker` (little-endian, cell 0 is bit 0). -/
def maskOf : Board → Cell → Nat
  | [], _ => 0
  | c :: rest, marker =>
    (if c == marker then 1 else 0) + 2 * maskOf rest marker

/-- Bitmask form of the win evaluator: the 8 winning triples as the masks
7, 56, 448, 73, 146, 292, 273, 84. -/
def fastWin (m : Nat) : Bool :=
  (m &&& 7 == 7) || (m &&& 56 == 56) || (m &&& 448 == 448) ||
  (m &&& 73 == 73) || (m &&& 146 == 146) || (m &&& 292 == 292) ||
  (m &&& 273 == 273) || (m &&& 84 == 84)

/-- Bitmask refinement of `AI.minimax`, on the masks of the computer's
and the player's cells; proven extensionally equal to the list version
for 9-cell boards with markers `'O'` and `'X'`. -/
def fastMinimax : Nat → Nat → Nat → Nat → Bool → Int
  | fuel, cmMask, pmMask, depth, isMaximizing =>
    if fastWin cmMask then 10 - (depth : Int)
    else if fastWin pmMask then -10 + (depth : Int)
    else if cmMask ||| pmMask == 511 then 0
    else
      match fuel with
      | 0 => 0
      | fuel' + 1 =>
        if isMaximizing then
          AI.idx9.foldl (fun bestScore i =>
            if (cmMask ||| pmMask) >>> i &&& 1 == 0 then
              strictNat (cmMask ||| 1 <<< i) fun cm' =>
              strictInt (fastMinimax fuel' cm' pmMask (depth + 1) false)
                fun s =>
              strictInt bestScore fun best =>
              AI.mathMax s best
            else bestScore) AI.negInf
        else
          AI.idx9.foldl (fun bestScore i =>
            if (cmMask ||| pmMask) >>> i &&& 1 == 0 then
              strictNat (pmMask ||| 1 <<< i) fun pm' =>
              strictInt (fastMinimax fuel' cmMask pm' (depth + 1) true)
                fun s =>
              strictInt bestScore fun best =>
              AI.mathMin s best
            else bestScore) AI.posInf

/-- Bitmask refinement of `AI.getBestMove`. -/
def fastGetBestMove (cmMask pmMask : Nat) : Option Nat :=
  let result := AI.idx9.foldl (fun acc i =>
    if (cmMask ||| pmMask) >>> i &&& 1 == 0 then
      strictNat (cmMask ||| 1 <<< i) fun cm' =>
      strictInt (fastMinimax 9 cm' pmMask 0 false) fun score =>
      if score > acc.1 then (score, some i) else acc
    else acc) (AI.negInf, (none : Option Nat))
  result.2

/-- Bitmask mirror of `playGame` quantified over all opponent moves: with
the opponent to move, every opponent move into an empty cell must not win
for the opponent, and after the computer's `fastGetBestMove` answer the
game must either be over or safe again recursively.  `fuel` bounds the
number of opponent moves; two cells fill per round. -/
def oSafe : Nat → Nat → Nat → Bool
  | 0, _, _ => true
  | fuel + 1, oMask, xMask =>
    AI.idx9.all fun i =>
      if (oMask ||| xMask) >>> i &&& 1 == 0 then
        strictNat (xMask ||| 1 <<< i) fun x' =>
        if fastWin x' then false
        else if oMask ||| x' == 511 then true
        else
          match fastGetBestMove oMask x' with
          | none => true
          | some m =>
            if decide (m < 9) && ((oMask ||| x') >>> m &&& 1 == 0) then
              strictNat (oMask ||| 1 <<< m) fun o' =>
              if fastWin o' then true
              else if o' ||| x' == 511 then true
              else oSafe fuel o' x'
            else true
      else true

/-- Numeric value of a little-endian list of bits; the link between the
list board and its bitmasks is `maskOf b m = bitsToNat (b.map (. == m))`. -/
def bitsToNat : List Bool → Nat
  | [] => 0
  | x :: rest => Nat.bit x (bitsToNat rest)

end Fast

/-! ### Transparency of the evaluation-order helpers -/

theorem strictInt_eq (v : Int) (k : Int → α) : strictInt v k = k v := by
  cases v <;> rfl

theorem strictNat_eq (n : Nat) (k : Nat → α) : strictNat n k = k n := by
  cases n <;> rfl

theorem strictBoard_eq (b : Board) (k : Board → α) : strictBoard b k = k b := by
  rcases b with _ | ⟨c0, _ | ⟨c1, _ | ⟨c2, _ | ⟨c3, _ | ⟨c4, _ | ⟨c5,
    _ | ⟨c6, _ | ⟨c7, _ | ⟨c8, rest⟩⟩⟩⟩⟩⟩⟩⟩⟩ <;> rfl

/-! ### Boards of length nine are nine cells -/

theorem exists_nine_cells (b : Board) (h : b.length = 9) :
    ∃ c0 c1 c2 c3 c4 c5 c6 c7 c8 : Cell,
      b = [c0, c1, c2, c3, c4, c5, c6, c7, c8] := by
  rcases b with _ | ⟨c0, b⟩; · simp at h
  rcases b with _ | ⟨c1, b⟩; · simp at h
  rcases b with _ | ⟨c2, b⟩; · simp at h
  rcases b with _ | ⟨c3, b⟩; · simp at h
  rcases b with _ | ⟨c4, b⟩; · simp at h
  rcases b with _ | ⟨c5, b⟩; · simp at h
  rcases b with _ | ⟨c6, b⟩; · simp at h
  rcases b with _ | ⟨c7, b⟩; · simp at h
  rcases b with _ | ⟨c8, b⟩; · simp at h
  rcases b with _ | ⟨c9, b⟩
  · exact ⟨c0, c1, c2, c3, c4, c5, c6, c7, c8, rfl⟩
  · simp at h

theorem mem_idx9_iff (i : Nat) : i ∈ AI.idx9 ↔ i < 9 := by
  simp [AI.idx9]
  omega

/-! ### The bit-list view: bridges between the list board and the
bitmask refinement -/

theorem maskOf_eq_bitsToNat (b : Board) (m : Cell) :
    Fast.maskOf b m = Fast.bitsToNat (b.map fun c => c == m) := by
  induction b with
  | nil => rfl
  | cons c rest ih =>
    simp only [Fast.maskOf, List.map, Fast.bitsToNat, ih]
    cases c == m <;> simp [Nat.bit] <;> omega

theorem testBit_bitsToNat (l : List Bool) :
    ∀ i, Nat.testBit (Fast.bitsToNat l) i = l.getD i false := by
  induction l with
  | nil => intro i; simp [Fast.bitsToNat, Nat.zero_testBit]
  | cons x rest ih =>
    intro i
    cases i with
    | zero => simp [Fast.bitsToNat, Nat.testBit_bit_zero]
    | succ j => simp [Fast.bitsToNat, Nat.testBit_bit_succ, ih]

theorem lor_bitsToNat (l : List Bool) :
    ∀ l' : List Bool, l.length = l'.length →
      Fast.bitsToNat l ||| Fast.bitsToNat l' =
        Fast.bitsToNat (l.zipWith (· || ·) l') := by
  induction l with
  | nil =>
    intro l' h
    obtain rfl : l' = [] := List.eq_nil_of_length_eq_zero h.symm
    rfl
  | cons x rest ih =>
    intro l' h
    cases l' with
    | nil => simp at h
    | cons y rest' =>
      simp only [List.length_cons, Nat.succ_inj] at h
      simp only [Fast.bitsToNat, List.zipWith, Nat.lor_bit, ih rest' h]

theorem bitsToNat_set_true (l : List Bool) :
    ∀ i, i < l.length → l.getD i false = false →
      Fast.bitsToNat (l.set i true) = Fast.bitsToNat l ||| 1 <<< i := by
  induction l with
  | nil => intro i hi _; simp at hi
  | cons x rest ih =>
    intro i hi hx
    cases i with
    | zero =>
      obtain rfl : x = false := hx
      show Fast.bitsToNat (true :: rest) = Fast.bitsToNat (false :: rest) ||| 1
      have h1 : (1 : Nat) = Nat.bit true 0 := rfl
      simp only [Fast.bitsToNat, h1, Nat.lor_bit]
      simp
    | succ j =>
      have hj : j < rest.length := by simpa using hi
      have hx' : rest.getD j false = false := hx
      show Fast.bitsToNat (x :: rest.set j true)
          = Fast.bitsToNat (x :: rest) ||| 1 <<< (j + 1)
      have h2 : (1 : Nat) <<< (j + 1) = Nat.bit false (1 <<< j) := by
        simp [Nat.shiftLeft_succ, Nat.bit]
      simp only [Fast.bitsToNat, h2, Nat.lor_bit, ih j hj hx']
      simp

theorem bitsToNat_set_false (l : List Bool) :
    ∀ i, l.getD i false = false →
      Fast.bitsToNat (l.set i false) = Fast.bitsToNat l := by
  induction l with
  | nil => intro i _; rfl
  | cons x rest ih =>
    intro i hx
    cases i with
    | zero => obtain rfl : x = false := hx; rfl
    | succ j =>
      show Fast.bitsToNat (x :: rest.set j false) = Fast.bitsToNat (x :: rest)
      simp only [Fast.bitsToNat, ih j hx]

theorem shift_and_one (x i : Nat) :
    ((x >>> i) &&& 1 == 0) = !Nat.testBit x i := by
  unfold Nat.testBit
  rw [Nat.land_comm]
  generalize 1 &&& (x >>> i) = n
  simp [bne]

theorem getD_map (f : Cell → Bool) (d : Cell) (l : List Cell) :
    ∀ i, (l.map f).getD i (f d) = f (l.getD i d) := by
  induction l with
  | nil => intro i; rfl
  | cons c rest ih =>
    intro i
    cases i with
    | zero => rfl
    | succ j => simpa using ih j

theorem cell_ne_E (c : Cell) :
    (c != Cell.E) = ((c == Cell.O) || (c == Cell.X)) := by
  cases c <;> rfl

theorem cell_eq_E (c : Cell) :
    (c == Cell.E) = !((c == Cell.O) || (c == Cell.X)) := by
  cases c <;> rfl

theorem checkWinner9 (c0 c1 c2 c3 c4 c5 c6 c7 c8 m : Cell) :
    checkWinner [c0, c1, c2, c3, c4, c5, c6, c7, c8] m =
      ((c0 == m && (c1 == m && (c2 == m && true))) ||
       ((c3 == m && (c4 == m && (c5 == m && true))) ||
        ((c6 == m && (c7 == m && (c8 == m && true))) ||
         ((c0 == m && (c3 == m && (c6 == m && true))) ||
          ((c1 == m && (c4 == m && (c7 == m && true))) ||
           ((c2 == m && (c5 == m && (c8 == m && true))) ||
            ((c0 == m && (c4 == m && (c8 == m && true))) ||
             ((c2 == m && (c4 == m && (c6 == m && true))) ||
              false)))))))) := rfl

theorem isFull9 (c0 c1 c2 c3 c4 c5 c6 c7 c8 : Cell) :
    Gameboard.isFull [c0, c1, c2, c3, c4, c5, c6, c7, c8] =
      (c0 != Cell.E && (c1 != Cell.E && (c2 != Cell.E && (c3 != Cell.E &&
       (c4 != Cell.E && (c5 != Cell.E && (c6 != Cell.E && (c7 != Cell.E &&
        (c8 != Cell.E && true))))))))) := rfl

theorem checkWinner_eq_fastWin (b : Board) (h : b.length = 9) (m : Cell) :
    checkWinner b m = Fast.fastWin (Fast.maskOf b m) := by
  obtain ⟨c0, c1, c2, c3, c4, c5, c6, c7, c8, rfl⟩ := exists_nine_cells b h
  rw [checkWinner9, maskOf_eq_bitsToNat]
  simp only [List.map]
  generalize (c0 == m) = x0
  generalize (c1 == m) = x1
  generalize (c2 == m) = x2
  generalize (c3 == m) = x3
  generalize (c4 == m) = x4
  generalize (c5 == m) = x5
  generalize (c6 == m) = x6
  generalize (c7 == m) = x7
  generalize (c8 == m) = x8
  revert x0 x1 x2 x3 x4 x5 x6 x7 x8
  decide

theorem isFull_eq_mask (b : Board) (h : b.length = 9) :
    Gameboard.isFull b =
      (Fast.maskOf b Cell.O ||| Fast.maskOf b Cell.X == 511) := by
  obtain ⟨c0, c1, c2, c3, c4, c5, c6, c7, c8, rfl⟩ := exists_nine_cells b h
  rw [isFull9, maskOf_eq_bitsToNat, maskOf_eq_bitsToNat]
  simp only [List.map]
  rw [lor_bitsToNat _ _ (by simp)]
  simp only [List.zipWith]
  simp only [cell_ne_E]
  generalize (c0 == Cell.O || c0 == Cell.X) = w0
  generalize (c1 == Cell.O || c1 == Cell.X) = w1
  generalize (c2 == Cell.O || c2 == Cell.X) = w2
  generalize (c3 == Cell.O || c3 == Cell.X) = w3
  generalize (c4 == Cell.O || c4 == Cell.X) = w4
  generalize (c5 == Cell.O || c5 == Cell.X) = w5
  generalize (c6 == Cell.O || c6 == Cell.X) = w6
  generalize (c7 == Cell.O || c7 == Cell.X) = w7
  generalize (c8 == Cell.O || c8 == Cell.X) = w8
  revert w0 w1 w2 w3 w4 w5 w6 w7 w8
  decide

theorem cellEmpty_eq_maskBit (b : Board) (i : Nat) :
    (cellAt b i == Cell.E) =
      ((Fast.maskOf b Cell.O ||| Fast.maskOf b Cell.X) >>> i &&& 1 == 0) := by
  rw [shift_and_one, Nat.testBit_lor, maskOf_eq_bitsToNat, maskOf_eq_bitsToNat,
    testBit_bitsToNat, testBit_bitsToNat]
  have hO : (b.map fun c => c == Cell.O).getD i false = (cellAt b i == Cell.O) :=
    getD_map (fun c => c == Cell.O) Cell.E b i
  have hX : (b.map fun c => c == Cell.X).getD i false = (cellAt b i == Cell.X) :=
    getD_map (fun c => c == Cell.X) Cell.E b i
  rw [hO, hX, cell_eq_E]

theorem maskOf_set_same (b : Board) (i : Nat) (hi : i < b.length)
    (he : cellAt b i = Cell.E) (m : Cell) (hm : m ≠ Cell.E) :
    Fast.maskOf (b.set i m) m = Fast.maskOf b m ||| 1 <<< i := by
  have hEm : (Cell.E == m) = false := by cases m <;> simp_all
  rw [maskOf_eq_bitsToNat, maskOf_eq_bitsToNat, List.map_set]
  have hmm : (m == m) = true := by simp
  rw [hmm]
  refine bitsToNat_set_true _ i (by simpa using hi) ?_
  have hget := getD_map (fun c => c == m) Cell.E b i
  simp only [cellAt] at he
  rw [he, hEm] at hget
  exact hget

theorem maskOf_set_other (b : Board) (i : Nat)
    (he : cellAt b i = Cell.E) (m m' : Cell) (hm : (m' == m) = false)
    (hEm : (Cell.E == m) = false) :
    Fast.maskOf (b.set i m') m = Fast.maskOf b m := by
  rw [maskOf_eq_bitsToNat, maskOf_eq_bitsToNat, List.map_set, hm]
  refine bitsToNat_set_false _ i ?_
  have hget := getD_map (fun c => c == m) Cell.E b i
  simp only [cellAt] at he
  rw [he, hEm] at hget
  exact hget

theorem emptyCount_set_lt (b : Board) (c : Cell) (hc : (c == Cell.E) = false) :
    ∀ i, i < b.length → cellAt b i = Cell.E →
      emptyCount (b.set i c) < emptyCount b := by
  induction b with
  | nil => intro i hi _; simp at hi
  | cons x rest ih =>
    intro i hi he
    cases i with
    | zero =>
      obtain rfl : x = Cell.E := he
      simp only [List.set, emptyCount, List.countP_cons, hc]
      simp
    | succ j =>
      have hj : j < rest.length := by simpa using hi
      have he' : cellAt rest j = Cell.E := he
      have := ih j hj he'
      simp only [List.set, emptyCount, List.countP_cons]
      simp only [emptyCount] at this
      omega

theorem checkWinner_eq_true_iff (b : Board) (m : Cell) :
    checkWinner b m = true ↔
      ∃ cond ∈ winConditions, ∀ j ∈ cond, cellAt b j == m := by
  simp [checkWinner]

theorem cellAt_set_ne (b : Board) (i j : Nat) (c : Cell) (hij : i ≠ j) :
    cellAt (b.set i c) j = cellAt b j := by
  simp only [cellAt, List.getD_eq_getElem?_getD, List.getElem?_set_ne hij]

theorem checkWinner_X_of_set_O (b : Board) (m : Nat)
    (hw : checkWinner b Cell.X = false) :
    checkWinner (b.set m Cell.O) Cell.X = false := by
  cases hx : checkWinner (b.set m Cell.O) Cell.X
  · rfl
  exfalso
  rw [checkWinner_eq_true_iff] at hx
  obtain ⟨cond, hcmem, hall⟩ := hx
  have h2 : checkWinner b Cell.X = true := by
    rw [checkWinner_eq_true_iff]
    refine ⟨cond, hcmem, fun j hj => ?_⟩
    have hjcell := hall j hj
    by_cases hjm : m = j
    · subst hjm
      by_cases hlen : m < b.length
      · have hO : cellAt (b.set m Cell.O) m = Cell.O := by
          simp [cellAt, List.getD_eq_getElem?_getD, List.getElem?_set_self hlen]
        rw [hO] at hjcell
        simp at hjcell
      · rw [List.set_eq_of_length_le (by omega)] at hjcell
        exact hjcell
    · rwa [cellAt_set_ne b m j Cell.O hjm] at hjcell
  rw [hw] at h2
  exact Bool.false_ne_true h2

theorem no_empty_of_emptyCount_zero (b : Board) (h0 : emptyCount b = 0)
    (i : Nat) (hi : i < b.length) : (cellAt b i == Cell.E) = false := by
  have hall := List.countP_eq_zero.mp h0
  have hmem : cellAt b i ∈ b := by
    have : b.getD i Cell.E = b[i] := List.getD_eq_getElem b Cell.E hi
    rw [cellAt, this]
    exact List.getElem_mem hi
  cases hcell : (cellAt b i == Cell.E)
  · rfl
  · exact absurd hcell (by simpa using hall _ hmem)

/-! ### Unfolding equations of the two minimax recursions at constructor
fuel -/

theorem minimax_zero (b : Board) (d : Nat) (mx : Bool) (cm pm : Cell) :
    AI.minimax 0 b d mx cm pm =
      (strictInt (AI.evaluate b cm pm) fun score =>
        if score = 10 then score - d
        else if score = -10 then score + d
        else if AI.isBoardFull b then 0
        else 0) := rfl

theorem minimax_succ (fuel' : Nat) (b : Board) (d : Nat) (mx : Bool)
    (cm pm : Cell) :
    AI.minimax (fuel' + 1) b d mx cm pm =
      (strictInt (AI.evaluate b cm pm) fun score =>
        if score = 10 then score - d
        else if score = -10 then score + d
        else if AI.isBoardFull b then 0
        else if mx then
          AI.idx9.foldl (fun bestScore i =>
            if cellAt b i == Cell.E then
              strictBoard (b.set i cm) fun moved =>
              strictInt (AI.minimax fuel' moved (d + 1) false cm pm) fun s =>
              strictInt bestScore fun best =>
              AI.mathMax s best
            else bestScore) AI.negInf
        else
          AI.idx9.foldl (fun bestScore i =>
            if cellAt b i == Cell.E then
              strictBoard (b.set i pm) fun moved =>
              strictInt (AI.minimax fuel' moved (d + 1) true cm pm) fun s =>
              strictInt bestScore fun best =>
              AI.mathMin s best
            else bestScore) AI.posInf) := rfl

theorem fastMinimax_zero (cmMask pmMask d : Nat) (mx : Bool) :
    Fast.fastMinimax 0 cmMask pmMask d mx =
      (if Fast.fastWin cmMask then 10 - (d : Int)
       else if Fast.fastWin pmMask then -10 + (d : Int)
       else if cmMask ||| pmMask == 511 then 0
       else 0) := rfl

theorem fastMinimax_succ (fuel' cmMask pmMask d : Nat) (mx : Bool) :
    Fast.fastMinimax (fuel' + 1) cmMask pmMask d mx =
      (if Fast.fastWin cmMask then 10 - (d : Int)
       else if Fast.fastWin pmMask then -10 + (d : Int)
       else if cmMask ||| pmMask == 511 then 0
       else if mx then
         AI.idx9.foldl (fun bestScore i =>
           if (cmMask ||| pmMask) >>> i &&& 1 == 0 then
             strictNat (cmMask ||| 1 <<< i) fun cm' =>
             strictInt (Fast.fastMinimax fuel' cm' pmMask (d + 1) false)
               fun s =>
             strictInt bestScore fun best =>
             AI.mathMax s best
           else bestScore) AI.negInf
       else
         AI.idx9.foldl (fun bestScore i =>
           if (cmMask ||| pmMask) >>> i &&& 1 == 0 then
             strictNat (pmMask ||| 1 <<< i) fun pm' =>
             strictInt (Fast.fastMinimax fuel' cmMask pm' (d + 1) true)
               fun s =>
             strictInt bestScore fun best =>
             AI.mathMin s best
           else bestScore) AI.posInf) := rfl

/-! ### The list minimax and the bitmask minimax agree -/

theorem minimax_eq_fast : ∀ (fuel : Nat) (b : Board), b.length = 9 →
    ∀ (depth : Nat) (isMax : Bool),
      AI.minimax fuel b depth isMax Cell.O Cell.X =
        Fast.fastMinimax fuel (Fast.maskOf b Cell.O) (Fast.maskOf b Cell.X)
          depth isMax := by
  intro fuel
  induction fuel with
  | zero =>
    intro b hb depth isMax
    rw [minimax_zero, fastMinimax_zero]
    simp only [strictInt_eq]
    rw [← checkWinner_eq_fastWin b hb Cell.O, ← checkWinner_eq_fastWin b hb Cell.X,
      ← isFull_eq_mask b hb]
    simp only [AI.evaluate, AI.checkWinner, AI.isBoardFull, Gameboard.isFull]
    rcases Bool.dichotomy (checkWinner b Cell.O) with hO | hO <;>
      rcases Bool.dichotomy (checkWinner b Cell.X) with hX | hX <;>
        simp [hO, hX]
  | succ fuel' ih =>
    intro b hb depth isMax
    rw [minimax_succ, fastMinimax_succ]
    simp only [strictInt_eq]
    rw [← checkWinner_eq_fastWin b hb Cell.O, ← checkWinner_eq_fastWin b hb Cell.X,
      ← isFull_eq_mask b hb]
    simp only [AI.evaluate, AI.checkWinner, AI.isBoardFull, Gameboard.isFull]
    rcases Bool.dichotomy (checkWinner b Cell.O) with hO | hO
    case inr => simp [hO]
    case inl =>
    rcases Bool.dichotomy (checkWinner b Cell.X) with hX | hX
    case inr => simp [hO, hX]
    case inl =>
    rcases Bool.dichotomy (Gameboard.isFull b) with hF | hF
    case inr =>
      simp only [Gameboard.isFull] at hF
      simp [hO, hX, hF]
    case inl =>
    simp only [Gameboard.isFull] at hF
    simp [hO, hX, hF]
    cases isMax
    case true =>
      try simp only [reduceIte]
      apply List.foldl_ext
      intro acc i hi
      have hi9 : i < 9 := (mem_idx9_iff i).mp hi
      cases hcell : (cellAt b i == Cell.E)
      case false =>
        have hbit : ((Fast.maskOf b Cell.O ||| Fast.maskOf b Cell.X) >>> i
            &&& 1 == 0) = false := by
          rw [← cellEmpty_eq_maskBit]; exact hcell
        have hne : ¬ cellAt b i = Cell.E := by simpa using hcell
        simp at hbit
        simp [hne, hbit]
      case true =>
        have hbit : ((Fast.maskOf b Cell.O ||| Fast.maskOf b Cell.X) >>> i
            &&& 1 == 0) = true := by
          rw [← cellEmpty_eq_maskBit]; exact hcell
        have he : cellAt b i = Cell.E := by simpa using hcell
        have hlen : i < b.length := by rw [hb]; exact hi9
        have hchild := ih (b.set i Cell.O) (by simp [hb]) (depth + 1) false
        rw [maskOf_set_same b i hlen he Cell.O (by decide),
          maskOf_set_other b i he Cell.X Cell.O (by decide) (by decide)]
          at hchild
        simp at hbit
        simp [strictBoard_eq, strictNat_eq, strictInt_eq, he, hbit, hchild]
    case false =>
      simp only [Bool.false_eq_true, if_false]
      apply List.foldl_ext
      intro acc i hi
      have hi9 : i < 9 := (mem_idx9_iff i).mp hi
      cases hcell : (cellAt b i == Cell.E)
      case false =>
        have hbit : ((Fast.maskOf b Cell.O ||| Fast.maskOf b Cell.X) >>> i
            &&& 1 == 0) = false := by
          rw [← cellEmpty_eq_maskBit]; exact hcell
        have hne : ¬ cellAt b i = Cell.E := by simpa using hcell
        simp at hbit
        simp [hne, hbit]
      case true =>
        have hbit : ((Fast.maskOf b Cell.O ||| Fast.maskOf b Cell.X) >>> i
            &&& 1 == 0) = true := by
          rw [← cellEmpty_eq_maskBit]; exact hcell
        have he : cellAt b i = Cell.E := by simpa using hcell
        have hlen : i < b.length := by rw [hb]; exact hi9
        have hchild := ih (b.set i Cell.X) (by simp [hb]) (depth + 1) true
        rw [maskOf_set_same b i hlen he Cell.X (by decide),
          maskOf_set_other b i he Cell.O Cell.X (by decide) (by decide)]
          at hchild
        simp at hbit
        simp [strictBoard_eq, strictNat_eq, strictInt_eq, he, hbit, hchild]

theorem getBestMove_eq_fast (b : Board) (hb : b.length = 9) :
    AI.getBestMove b Cell.O Cell.X =
      Fast.fastGetBestMove (Fast.maskOf b Cell.O) (Fast.maskOf b Cell.X) := by
  simp only [AI.getBestMove, Fast.fastGetBestMove]
  congr 1
  apply List.foldl_ext
  intro acc i hi
  have hi9 : i < 9 := (mem_idx9_iff i).mp hi
  cases hcell : (cellAt b i == Cell.E)
  case false =>
    have hbit : ((Fast.maskOf b Cell.O ||| Fast.maskOf b Cell.X) >>> i
        &&& 1 == 0) = false := by
      rw [← cellEmpty_eq_maskBit]; exact hcell
    have hne : ¬ cellAt b i = Cell.E := by simpa using hcell
    simp at hbit
    simp [hne, hbit]
  case true =>
    have hbit : ((Fast.maskOf b Cell.O ||| Fast.maskOf b Cell.X) >>> i
        &&& 1 == 0) = true := by
      rw [← cellEmpty_eq_maskBit]; exact hcell
    have he : cellAt b i = Cell.E := by simpa using hcell
    have hlen : i < b.length := by rw [hb]; exact hi9
    have hchild := minimax_eq_fast 9 (b.set i Cell.O) (by simp [hb]) 0 false
    rw [maskOf_set_same b i hlen he Cell.O (by decide),
      maskOf_set_other b i he Cell.X Cell.O (by decide) (by decide)] at hchild
    simp at hbit
    simp [strictBoard_eq, strictNat_eq, strictInt_eq, he, hbit, hchild]

theorem oSafe_succ (fuel oMask xMask : Nat) :
    Fast.oSafe (fuel + 1) oMask xMask =
      (AI.idx9.all fun i =>
        if (oMask ||| xMask) >>> i &&& 1 == 0 then
          strictNat (xMask ||| 1 <<< i) fun x' =>
          if Fast.fastWin x' then false
          else if oMask ||| x' == 511 then true
          else
            match Fast.fastGetBestMove oMask x' with
            | none => true
            | some m =>
              if decide (m < 9) && ((oMask ||| x') >>> m &&& 1 == 0) then
                strictNat (oMask ||| 1 <<< m) fun o' =>
                if Fast.fastWin o' then true
                else if o' ||| x' == 511 then true
                else Fast.oSafe fuel o' x'
              else true
        else true) := rfl

theorem oSafe_sound : ∀ (fuel : Nat) (b : Board) (xs : List Nat),
    b.length = 9 → emptyCount b ≤ 2 * fuel →
    checkWinner b Cell.X = false →
    Fast.oSafe fuel (Fast.maskOf b Cell.O) (Fast.maskOf b Cell.X) = true →
    checkWinner (playGame b xs) Cell.X = false := by
  intro fuel
  induction fuel with
  | zero =>
    intro b xs hb hcnt hw _
    cases xs with
    | nil => simpa [playGame] using hw
    | cons i rest =>
      by_cases hi9 : i < 9
      · have hcnt0 : emptyCount b = 0 := by omega
        have hcell := no_empty_of_emptyCount_zero b hcnt0 i (by rw [hb]; exact hi9)
        simp [playGame, hcell, hw]
      · simp [playGame, hi9, hw]
  | succ fuel' ih =>
    intro b xs hb hcnt hw hsafe
    cases xs with
    | nil => simpa [playGame] using hw
    | cons i rest =>
      by_cases hi9 : i < 9
      case neg => simp [playGame, hi9, hw]
      case pos =>
      cases hcell : (cellAt b i == Cell.E)
      case false => simp [playGame, hi9, hcell, hw]
      case true =>
      have he : cellAt b i = Cell.E := by simpa using hcell
      have hlen : i < b.length := by rw [hb]; exact hi9
      rw [oSafe_succ] at hsafe
      have hp := (List.all_eq_true.mp hsafe) i ((mem_idx9_iff i).mpr hi9)
      have hbit : ((Fast.maskOf b Cell.O ||| Fast.maskOf b Cell.X) >>> i
          &&& 1 == 0) = true := by
        rw [← cellEmpty_eq_maskBit]; exact hcell
      rw [hbit] at hp
      simp only [if_true, strictNat_eq] at hp
      have hlen9 : (b.set i Cell.X).length = 9 := by simp [hb]
      have hmX : Fast.maskOf (b.set i Cell.X) Cell.X
          = Fast.maskOf b Cell.X ||| 1 <<< i :=
        maskOf_set_same b i hlen he Cell.X (by decide)
      have hmO : Fast.maskOf (b.set i Cell.X) Cell.O = Fast.maskOf b Cell.O :=
        maskOf_set_other b i he Cell.O Cell.X (by decide) (by decide)
      rw [← hmX, ← hmO] at hp
      have hwX' : checkWinner (b.set i Cell.X) Cell.X
          = Fast.fastWin (Fast.maskOf (b.set i Cell.X) Cell.X) :=
        checkWinner_eq_fastWin _ hlen9 Cell.X
      simp only [playGame]
      rw [strictBoard_eq]
      have hguard : (decide (i < 9) && (cellAt b i == Cell.E)) = true := by
        simp [hi9, hcell]
      rw [hguard]
      simp only [if_true]
      cases hfwx : Fast.fastWin (Fast.maskOf (b.set i Cell.X) Cell.X)
      case true => rw [hfwx] at hp; simp at hp
      case false =>
      have hXafter : checkWinner (b.set i Cell.X) Cell.X = false := by
        rw [hwX', hfwx]
      rw [hfwx] at hp
      simp only [Bool.false_eq_true, if_false] at hp
      rw [hXafter]
      simp only [Bool.false_eq_true, if_false]
      cases hfull : Gameboard.isFull (b.set i Cell.X)
      case true => simp [hfull, hXafter]
      case false =>
      have hfull' : (Fast.maskOf (b.set i Cell.X) Cell.O
          ||| Fast.maskOf (b.set i Cell.X) Cell.X == 511) = false := by
        rw [← isFull_eq_mask _ hlen9]; exact hfull
      rw [hfull'] at hp
      simp only [Bool.false_eq_true, if_false] at hp
      simp only [Bool.false_eq_true, if_false]
      rw [getBestMove_eq_fast _ hlen9]
      cases hmove : Fast.fastGetBestMove (Fast.maskOf (b.set i Cell.X) Cell.O)
          (Fast.maskOf (b.set i Cell.X) Cell.X)
      case none => rw [hmove] at hp; exact hXafter
      case some m =>
      rw [hmove] at hp
      simp only [] at hp
      simp only []
      have hcondeq : (decide (m < 9) && (cellAt (b.set i Cell.X) m == Cell.E))
          = (decide (m < 9) && ((Fast.maskOf (b.set i Cell.X) Cell.O
              ||| Fast.maskOf (b.set i Cell.X) Cell.X) >>> m &&& 1 == 0)) := by
        rw [cellEmpty_eq_maskBit]
      cases hOm : (decide (m < 9) && (cellAt (b.set i Cell.X) m == Cell.E))
      case false => simp [hOm, hXafter]
      case true =>
      rw [← hcondeq, hOm] at hp
      simp only [if_true, strictNat_eq] at hp
      simp only [hOm, if_true, strictBoard_eq]
      have hOm' := hOm
      rw [Bool.and_eq_true] at hOm'
      have hm9 : m < 9 := of_decide_eq_true hOm'.1
      have hcm : cellAt (b.set i Cell.X) m = Cell.E := by
        have := hOm'.2
        simpa using this
      have hlenm : m < (b.set i Cell.X).length := by rw [hlen9]; exact hm9
      have hlen9' : ((b.set i Cell.X).set m Cell.O).length = 9 := by
        simp [hb]
      have hmO' : Fast.maskOf ((b.set i Cell.X).set m Cell.O) Cell.O
          = Fast.maskOf (b.set i Cell.X) Cell.O ||| 1 <<< m :=
        maskOf_set_same _ m hlenm hcm Cell.O (by decide)
      have hmX' : Fast.maskOf ((b.set i Cell.X).set m Cell.O) Cell.X
          = Fast.maskOf (b.set i Cell.X) Cell.X :=
        maskOf_set_other _ m hcm Cell.X Cell.O (by decide) (by decide)
      rw [← hmO', ← hmX'] at hp
      have hXafterO : checkWinner ((b.set i Cell.X).set m Cell.O) Cell.X
          = false := checkWinner_X_of_set_O _ m hXafter
      cases hfwO : Fast.fastWin (Fast.maskOf ((b.set i Cell.X).set m Cell.O)
          Cell.O)
      case true =>
        have hcwO : checkWinner ((b.set i Cell.X).set m Cell.O) Cell.O
            = true := by
          rw [checkWinner_eq_fastWin _ hlen9' Cell.O, hfwO]
        rw [hcwO]
        simp only [if_true]
        exact hXafterO
      case false =>
      have hcwO : checkWinner ((b.set i Cell.X).set m Cell.O) Cell.O
          = false := by
        rw [checkWinner_eq_fastWin _ hlen9' Cell.O, hfwO]
      rw [hcwO]
      simp only [Bool.false_eq_true, if_false]
      rw [hfwO] at hp
      simp only [Bool.false_eq_true, if_false] at hp
      cases hfullO : Gameboard.isFull ((b.set i Cell.X).set m Cell.O)
      case true => simp [hfullO, hXafterO]
      case false =>
      have hfullO' : (Fast.maskOf ((b.set i Cell.X).set m Cell.O) Cell.O
          ||| Fast.maskOf ((b.set i Cell.X).set m Cell.O) Cell.X == 511)
          = false := by
        rw [← isFull_eq_mask _ hlen9']; exact hfullO
      simp only [Bool.false_eq_true, if_false]
      rw [hfullO'] at hp
      simp only [Bool.false_eq_true, if_false] at hp
      apply ih
      · exact hlen9'
      · have d1 : emptyCount (b.set i Cell.X) < emptyCount b :=
          emptyCount_set_lt b Cell.X (by decide) i hlen he
        have d2 : emptyCount ((b.set i Cell.X).set m Cell.O)
            < emptyCount (b.set i Cell.X) :=
          emptyCount_set_lt _ Cell.O (by decide) m hlenm hcm
        omega
      · exact hXafterO
      · exact hp

theorem oSafe_start : Fast.oSafe 5 0 0 = true := by decide!

/-- C1: For every game played from the empty 3x3 board in which the
computer (marker `'O'`, moving second) chooses every one of its moves with
the minimax selector `AI.getBestMove` and the opponent (marker `'X'`)
plays any sequence of legal moves, the finished game is a win for the
computer or a draw: the opponent never occupies a winning triple, at the
end or at any other point of the game. -/
theorem computer_never_loses (xs : List Nat) :
    checkWinner (playGame emptyBoard xs) Cell.X = false :=
  oSafe_sound 5 emptyBoard xs rfl (by decide) rfl oSafe_start

/-! ### Lower bound on minimax scores: the sentinel never escapes -/

theorem le_mathMax_right (a b : Int) : b ≤ AI.mathMax a b := by
  simp only [AI.mathMax]
  split_ifs with h <;> omega

theorem lt_mathMin (c a b : Int) (ha : c < a) (hb : c < b) :
    c < AI.mathMin a b := by
  simp only [AI.mathMin]
  split_ifs <;> omega

theorem le_foldl_mathMax (P : Nat → Bool) (v : Nat → Int) :
    ∀ (l : List Nat) (init : Int),
      init ≤ l.foldl (fun acc j =>
        if P j then AI.mathMax (v j) acc else acc) init := by
  intro l
  induction l with
  | nil => intro init; simp
  | cons h t ih =>
    intro init
    simp only [List.foldl_cons]
    by_cases hp : P h = true
    · simp only [hp, if_true]
      exact le_trans (le_mathMax_right (v h) init) (ih _)
    · simp only [Bool.not_eq_true] at hp
      simp only [hp, Bool.false_eq_true, if_false]
      exact ih init

theorem elem_le_foldl_mathMax (P : Nat → Bool) (v : Nat → Int) :
    ∀ (l : List Nat) (init : Int) (i : Nat), i ∈ l → P i = true →
      v i ≤ l.foldl (fun acc j =>
        if P j then AI.mathMax (v j) acc else acc) init := by
  intro l
  induction l with
  | nil => intro init i hi; simp at hi
  | cons h t ih =>
    intro init i hi hp
    simp only [List.foldl_cons]
    rcases List.mem_cons.mp hi with rfl | hmem
    · simp only [hp, if_true]
      refine le_trans ?_ (le_foldl_mathMax P v t _)
      simp only [AI.mathMax]
      split_ifs with hc <;> omega
    · exact ih _ i hmem hp

theorem gt_foldl_mathMin (c : Int) (P : Nat → Bool) (v : Nat → Int) :
    ∀ (l : List Nat) (init : Int), c < init →
      (∀ i ∈ l, P i = true → c < v i) →
      c < l.foldl (fun acc j =>
        if P j then AI.mathMin (v j) acc else acc) init := by
  intro l
  induction l with
  | nil => intro init hinit _; simpa using hinit
  | cons h t ih =>
    intro init hinit hall
    simp only [List.foldl_cons]
    by_cases hp : P h = true
    · simp only [hp, if_true]
      refine ih _ (lt_mathMin c _ _ (hall h (by simp) hp) hinit) ?_
      intro i hi hpi
      exact hall i (by simp [hi]) hpi
    · simp only [Bool.not_eq_true] at hp
      simp only [hp, Bool.false_eq_true, if_false]
      exact ih _ hinit fun i hi hpi => hall i (by simp [hi]) hpi

theorem exists_empty_of_not_full (b : Board) (hb : b.length = 9)
    (hf : AI.isBoardFull b = false) : ∃ i, i < 9 ∧ cellAt b i = Cell.E := by
  simp only [AI.isBoardFull] at hf
  rcases List.all_eq_false.mp hf with ⟨x, hmem, hx⟩
  have hxE : x = Cell.E := by
    cases x <;> simp_all
  subst hxE
  rcases List.mem_iff_getElem.mp hmem with ⟨n, hn, hget⟩
  refine ⟨n, by omega, ?_⟩
  rw [cellAt, List.getD_eq_getElem b Cell.E hn, hget]

theorem minimax_gt_negInf : ∀ (fuel : Nat) (b : Board), b.length = 9 →
    ∀ (d : Nat) (mx : Bool) (cm pm : Cell), d + fuel ≤ 10 →
    AI.negInf < AI.minimax fuel b d mx cm pm := by
  intro fuel
  induction fuel with
  | zero =>
    intro b hb d mx cm pm hd
    rw [minimax_zero]
    simp only [strictInt_eq]
    split_ifs with h1 h2 h3
    · rw [h1]; simp only [AI.negInf]; omega
    · rw [h2]; simp only [AI.negInf]; omega
    · simp [AI.negInf]
    · simp [AI.negInf]
  | succ fuel' ih =>
    intro b hb d mx cm pm hd
    rw [minimax_succ]
    simp only [strictInt_eq, strictBoard_eq]
    split_ifs with h1 h2 h3 h4
    · rw [h1]; simp only [AI.negInf]; omega
    · rw [h2]; simp only [AI.negInf]; omega
    · simp [AI.negInf]
    · -- maximizing fold
      have hnf : AI.isBoardFull b = false := by
        cases hq : AI.isBoardFull b
        · rfl
        · exact absurd hq h3
      rcases exists_empty_of_not_full b hb hnf with ⟨i0, hi09, hi0e⟩
      have hstep := elem_le_foldl_mathMax
        (fun i => cellAt b i == Cell.E)
        (fun i => AI.minimax fuel' (b.set i cm) (d + 1) false cm pm)
        AI.idx9 AI.negInf i0 ((mem_idx9_iff i0).mpr hi09) (by simp [hi0e])
      have hchild : AI.negInf <
          AI.minimax fuel' (b.set i0 cm) (d + 1) false cm pm :=
        ih (b.set i0 cm) (by simp [hb]) (d + 1) false cm pm (by omega)
      exact lt_of_lt_of_le hchild hstep
    · -- minimizing fold
      refine gt_foldl_mathMin AI.negInf
        (fun i => cellAt b i == Cell.E)
        (fun i => AI.minimax fuel' (b.set i pm) (d + 1) true cm pm)
        AI.idx9 AI.posInf (by simp [AI.negInf, AI.posInf]) ?_
      intro i hi hpi
      exact ih (b.set i pm) (by simp [hb]) (d + 1) true cm pm (by omega)

/-! ### The selection loop of getBestMove: strictly-best score, ties to
the first-found maximum -/

theorem idx9_eq_range : AI.idx9 = List.range 9 := by decide

theorem getBestMove_eq_loop (b : Board) (cm pm : Cell) :
    AI.getBestMove b cm pm =
      ((List.range 9).foldl (fun acc j =>
        if cellAt b j == Cell.E then
          (if AI.minimax 9 (b.set j cm) 0 false cm pm > acc.1
           then (AI.minimax 9 (b.set j cm) 0 false cm pm, some j) else acc)
        else acc) (AI.negInf, (none : Option Nat))).2 := by
  simp only [AI.getBestMove]
  rw [← idx9_eq_range]
  congr 1
  apply List.foldl_ext
  intro acc j hj
  simp only [strictBoard_eq, strictInt_eq]

theorem argmax_loop (P : Nat → Bool) (v : Nat → Int)
    (hv : ∀ i, i < 9 → P i = true → AI.negInf < v i) :
    ∀ k, k ≤ 9 → ∀ s m',
      (List.range k).foldl (fun acc j =>
        if P j then (if v j > acc.1 then (v j, some j) else acc) else acc)
        (AI.negInf, (none : Option Nat)) = (s, m') →
      (m' = none ∧ s = AI.negInf ∧ ∀ i, i < k → P i = false) ∨
      (∃ j, m' = some j ∧ j < k ∧ P j = true ∧ s = v j ∧
        (∀ i, i < k → P i = true → v i ≤ v j) ∧
        (∀ i, i < j → P i = true → v i < v j)) := by
  intro k
  induction k with
  | zero =>
    intro _ s m' hfold
    simp only [List.range_zero, List.foldl_nil] at hfold
    injection hfold with h1 h2
    subst h1; subst h2
    left
    exact ⟨rfl, rfl, fun i hi => absurd hi (by omega)⟩
  | succ k ih =>
    intro hk s m' hfold
    rw [List.range_succ, List.foldl_append, List.foldl_cons,
      List.foldl_nil] at hfold
    rcases hfold0 : (List.range k).foldl (fun acc j =>
        if P j then (if v j > acc.1 then (v j, some j) else acc) else acc)
        (AI.negInf, (none : Option Nat)) with ⟨s0, m0⟩
    rw [hfold0] at hfold
    simp only [] at hfold
    rcases ih (by omega) s0 m0 hfold0 with ⟨hm0, hs0, hnone⟩ |
      ⟨j, hm0, hjk, hPj, hs0, hmax, hfirst⟩
    · by_cases hPk : P k = true
      · have hgt : v k > s0 := by rw [hs0]; exact hv k (by omega) hPk
        rw [if_pos hPk, if_pos hgt] at hfold
        injection hfold with h1 h2
        right
        refine ⟨k, h2.symm, by omega, hPk, h1.symm, ?_, ?_⟩
        · intro i hi hp
          rcases Nat.lt_succ_iff_lt_or_eq.mp hi with h | rfl
          · exact absurd hp (by simp [hnone i h])
          · exact le_refl _
        · intro i hij hp
          exact absurd hp (by simp [hnone i hij])
      · rw [if_neg hPk] at hfold
        injection hfold with h1 h2
        subst h1; subst h2
        left
        refine ⟨hm0, hs0, ?_⟩
        intro i hi
        rcases Nat.lt_succ_iff_lt_or_eq.mp hi with h | rfl
        · exact hnone i h
        · cases hq : P i
          · rfl
          · exact absurd hq hPk
    · by_cases hPk : P k = true
      · by_cases hgt : v k > s0
        · rw [if_pos hPk, if_pos hgt] at hfold
          injection hfold with h1 h2
          right
          refine ⟨k, h2.symm, by omega, hPk, h1.symm, ?_, ?_⟩
          · intro i hi hp
            rcases Nat.lt_succ_iff_lt_or_eq.mp hi with h | rfl
            · have h1 := hmax i h hp
              rw [hs0] at hgt
              omega
            · exact le_refl _
          · intro i hij hp
            have h1 : v i ≤ v j := hmax i (by omega) hp
            rw [hs0] at hgt
            omega
        · rw [if_pos hPk, if_neg hgt] at hfold
          injection hfold with h1 h2
          subst h1; subst h2
          right
          refine ⟨j, hm0, by omega, hPj, hs0, ?_, hfirst⟩
          intro i hi hp
          rcases Nat.lt_succ_iff_lt_or_eq.mp hi with h | rfl
          · exact hmax i h hp
          · rw [hs0] at hgt; omega
      · rw [if_neg hPk] at hfold
        injection hfold with h1 h2
        subst h1; subst h2
        right
        refine ⟨j, hm0, by omega, hPj, hs0, ?_, hfirst⟩
        intro i hi hp
        rcases Nat.lt_succ_iff_lt_or_eq.mp hi with h | rfl
        · exact hmax i h hp
        · exact absurd hp hPk

/-- C2: For every 9-cell board with at least one empty cell and every pair
of distinct markers, the minimax selector `AI.getBestMove` scans candidate
cells in ascending index order 0..8, scores each empty cell by the minimax
recursion, and returns the index whose score is strictly highest; when
several empty cells share the maximal score it returns the lowest such
index, because the strict comparison keeps the first-found maximum. -/
theorem getBestMove_first_max (b : Board) (hb : b.length = 9)
    (cm pm : Cell) (hcm : cm ≠ Cell.E) (hpm : pm ≠ Cell.E) (hcmpm : cm ≠ pm)
    (hne : ∃ i, i < 9 ∧ cellAt b i = Cell.E) :
    ∃ j, AI.getBestMove b cm pm = some j ∧ j < 9 ∧ cellAt b j = Cell.E ∧
      (∀ i, i < 9 → cellAt b i = Cell.E →
        AI.minimax 9 (b.set i cm) 0 false cm pm ≤
          AI.minimax 9 (b.set j cm) 0 false cm pm) ∧
      (∀ i, i < j → cellAt b i = Cell.E →
        AI.minimax 9 (b.set i cm) 0 false cm pm <
          AI.minimax 9 (b.set j cm) 0 false cm pm) := by
  have hv : ∀ i, i < 9 → (cellAt b i == Cell.E) = true →
      AI.negInf < AI.minimax 9 (b.set i cm) 0 false cm pm := by
    intro i hi _
    exact minimax_gt_negInf 9 (b.set i cm) (by simp [hb]) 0 false cm pm
      (by omega)
  rcases hfold : (List.range 9).foldl (fun acc j =>
      if cellAt b j == Cell.E then
        (if AI.minimax 9 (b.set j cm) 0 false cm pm > acc.1
         then (AI.minimax 9 (b.set j cm) 0 false cm pm, some j) else acc)
      else acc) (AI.negInf, (none : Option Nat)) with ⟨s, m'⟩
  have hloop := argmax_loop (fun i => cellAt b i == Cell.E)
    (fun i => AI.minimax 9 (b.set i cm) 0 false cm pm) hv 9 (le_refl 9)
    s m' hfold
  rcases hloop with ⟨_, _, hnoneP⟩ | ⟨j, hm, hj9, hPj, _, hmax, hfirst⟩
  · exfalso
    rcases hne with ⟨i, hi9, hie⟩
    have := hnoneP i hi9
    simp [hie] at this
  · refine ⟨j, ?_, hj9, by simpa using hPj, ?_, ?_⟩
    · rw [getBestMove_eq_loop b cm pm, hfold]
      simpa using hm
    · intro i hi hie
      exact hmax i hi (by simp [hie])
    · intro i hij hie
      exact hfirst i hij (by simp [hie])

theorem getBestMove_first_max_witness :
    ∃ j, AI.getBestMove emptyBoard Cell.O Cell.X = some j ∧ j < 9 ∧
      cellAt emptyBoard j = Cell.E ∧
      (∀ i, i < 9 → cellAt emptyBoard i = Cell.E →
        AI.minimax 9 (emptyBoard.set i Cell.O) 0 false Cell.O Cell.X ≤
          AI.minimax 9 (emptyBoard.set j Cell.O) 0 false Cell.O Cell.X) ∧
      (∀ i, i < j → cellAt emptyBoard i = Cell.E →
        AI.minimax 9 (emptyBoard.set i Cell.O) 0 false Cell.O Cell.X <
          AI.minimax 9 (emptyBoard.set j Cell.O) 0 false Cell.O Cell.X) :=
  getBestMove_first_max emptyBoard rfl Cell.O Cell.X (by decide) (by decide)
    (by decide) ⟨0, by omega, rfl⟩

/-- C3: At every board and depth `d` inside the minimax recursion, a
terminal position scores `10 - d` when the computer marker occupies a
winning triple (checked first, before everything else), `-10 + d` when
the opponent marker occupies a winning triple, and `0` when the board is
full with no winner; the winning-triple checks are evaluated before the
full-board check, so a winning full board scores by the winner, not 0. -/
theorem minimax_terminal (fuel : Nat) (b : Board) (d : Nat) (isMax : Bool)
    (cm pm : Cell) :
    (AI.checkWinner b cm = true →
      AI.minimax fuel b d isMax cm pm = 10 - (d : Int)) ∧
    (AI.checkWinner b cm = false → AI.checkWinner b pm = true →
      AI.minimax fuel b d isMax cm pm = -10 + (d : Int)) ∧
    (AI.checkWinner b cm = false → AI.checkWinner b pm = false →
      AI.isBoardFull b = true →
      AI.minimax fuel b d isMax cm pm = 0) := by
  refine ⟨?_, ?_, ?_⟩
  · intro hcm
    cases fuel with
    | zero =>
      rw [minimax_zero]
      simp [strictInt_eq, AI.evaluate, hcm]
    | succ n =>
      rw [minimax_succ]
      simp [strictInt_eq, AI.evaluate, hcm]
  · intro hcm hpm
    cases fuel with
    | zero =>
      rw [minimax_zero]
      simp [strictInt_eq, AI.evaluate, hcm, hpm]
    | succ n =>
      rw [minimax_succ]
      simp [strictInt_eq, AI.evaluate, hcm, hpm]
  · intro hcm hpm hfull
    cases fuel with
    | zero =>
      rw [minimax_zero]
      simp [strictInt_eq, AI.evaluate, hcm, hpm, hfull]
    | succ n =>
      rw [minimax_succ]
      simp [strictInt_eq, AI.evaluate, hcm, hpm, hfull]

theorem minimax_terminal_witness :
    AI.minimax 4 [Cell.O, Cell.O, Cell.O, Cell.X, Cell.X, Cell.E, Cell.E,
      Cell.E, Cell.E] 3 true Cell.O Cell.X = 10 - (3 : Int) ∧
    AI.minimax 4 [Cell.X, Cell.X, Cell.X, Cell.O, Cell.O, Cell.E, Cell.E,
      Cell.E, Cell.E] 5 false Cell.O Cell.X = -10 + (5 : Int) ∧
    AI.minimax 0 [Cell.X, Cell.O, Cell.X, Cell.X, Cell.O, Cell.O, Cell.O,
      Cell.X, Cell.X] 6 true Cell.O Cell.X = 0 :=
  ⟨(minimax_terminal 4 _ 3 true Cell.O Cell.X).1 (by decide),
   (minimax_terminal 4 _ 5 false Cell.O Cell.X).2.1 (by decide) (by decide),
   (minimax_terminal 0 _ 6 true Cell.O Cell.X).2.2 (by decide) (by decide)
     (by decide)⟩

/-- C5: On the board with `'X'` at cells 0 and 1, `'O'` at cell 4 and the
rest empty, and likewise on the board with only `'X'` at cells 0 and 1,
the minimax selector playing computer marker `'O'` against opponent
marker `'X'` returns index 2, the blocking cell. -/
theorem getBestMove_blocks_at_two :
    AI.getBestMove [Cell.X, Cell.X, Cell.E, Cell.E, Cell.O, Cell.E, Cell.E,
      Cell.E, Cell.E] Cell.O Cell.X = some 2 ∧
    AI.getBestMove [Cell.X, Cell.X, Cell.E, Cell.E, Cell.E, Cell.E, Cell.E,
      Cell.E, Cell.E] Cell.O Cell.X = some 2 := by
  constructor
  · have h := getBestMove_eq_fast [Cell.X, Cell.X, Cell.E, Cell.E, Cell.O,
      Cell.E, Cell.E, Cell.E, Cell.E] (by rfl)
    rw [h]
    decide!
  · have h := getBestMove_eq_fast [Cell.X, Cell.X, Cell.E, Cell.E, Cell.E,
      Cell.E, Cell.E, Cell.E, Cell.E] (by rfl)
    rw [h]
    decide!

/-! ### The heuristic selector: characterization of findWinningMove -/

theorem tripleCheck_some (brd : Board) (m : Cell) (hm : m ≠ Cell.E)
    (a b c i : Nat)
    (hsome : (if ([cellAt brd a, cellAt brd b, cellAt brd c].countP
          fun v => v == m) = 2 ∧
        ([cellAt brd a, cellAt brd b, cellAt brd c].countP
          fun v => v == Cell.E) = 1 then
        if cellAt brd a == Cell.E then some a
        else if cellAt brd b == Cell.E then some b
        else if cellAt brd c == Cell.E then some c
        else none
      else none) = some i) :
    cellAt brd i = Cell.E ∧ i ∈ ([a, b, c] : List Nat) ∧
      ∀ j ∈ ([a, b, c] : List Nat), j ≠ i → cellAt brd j = m := by
  have hEm : (Cell.E == m) = false := by cases m <;> simp_all
  split_ifs at hsome with hcount hae hbe hce
  · -- first empty cell is a
    obtain rfl : a = i := by simpa using hsome
    have hva : cellAt brd a = Cell.E := by simpa using hae
    rcases hcount with ⟨h2, _⟩
    cases hb' : (cellAt brd b == m) <;> cases hc' : (cellAt brd c == m) <;>
      simp [List.countP_cons, hva, hb', hc', hEm] at h2
    have hvb : cellAt brd b = m := by simpa using hb'
    have hvc : cellAt brd c = m := by simpa using hc'
    refine ⟨hva, by simp, ?_⟩
    intro j hj hji
    rcases (by simpa using hj : j = a ∨ j = b ∨ j = c) with rfl | rfl | rfl
    · exact absurd rfl hji
    · exact hvb
    · exact hvc
  · -- first empty cell is b
    obtain rfl : b = i := by simpa using hsome
    have hvb : cellAt brd b = Cell.E := by simpa using hbe
    rcases hcount with ⟨h2, _⟩
    cases ha' : (cellAt brd a == m) <;> cases hc' : (cellAt brd c == m) <;>
      simp [List.countP_cons, hvb, ha', hc', hEm] at h2
    have hva : cellAt brd a = m := by simpa using ha'
    have hvc : cellAt brd c = m := by simpa using hc'
    refine ⟨hvb, by simp, ?_⟩
    intro j hj hji
    rcases (by simpa using hj : j = a ∨ j = b ∨ j = c) with rfl | rfl | rfl
    · exact hva
    · exact absurd rfl hji
    · exact hvc
  · -- first empty cell is c
    obtain rfl : c = i := by simpa using hsome
    have hvc : cellAt brd c = Cell.E := by simpa using hce
    rcases hcount with ⟨h2, _⟩
    cases ha' : (cellAt brd a == m) <;> cases hb' : (cellAt brd b == m) <;>
      simp [List.countP_cons, hvc, ha', hb', hEm] at h2
    have hva : cellAt brd a = m := by simpa using ha'
    have hvb : cellAt brd b = m := by simpa using hb'
    refine ⟨hvc, by simp, ?_⟩
    intro j hj hji
    rcases (by simpa using hj : j = a ∨ j = b ∨ j = c) with rfl | rfl | rfl
    · exact hva
    · exact hvb
    · exact absurd rfl hji

theorem tripleCheck_none (brd : Board) (m : Cell) (hm : m ≠ Cell.E)
    (a b c i : Nat)
    (hnone : (if ([cellAt brd a, cellAt brd b, cellAt brd c].countP
          fun v => v == m) = 2 ∧
        ([cellAt brd a, cellAt brd b, cellAt brd c].countP
          fun v => v == Cell.E) = 1 then
        if cellAt brd a == Cell.E then some a
        else if cellAt brd b == Cell.E then some b
        else if cellAt brd c == Cell.E then some c
        else none
      else none) = none)
    (hab : a ≠ b) (hac : a ≠ c) (hbc : b ≠ c)
    (hi : i ∈ ([a, b, c] : List Nat)) (hie : cellAt brd i = Cell.E)
    (hall : ∀ j ∈ ([a, b, c] : List Nat), j ≠ i → cellAt brd j = m) :
    False := by
  have hEm : (Cell.E == m) = false := by cases m <;> simp_all
  have hmE : (m == Cell.E) = false := by cases m <;> simp_all
  rcases (by simpa using hi : i = a ∨ i = b ∨ i = c) with rfl | rfl | rfl
  · have hvb : cellAt brd b = m := hall b (by simp) (by omega)
    have hvc : cellAt brd c = m := hall c (by simp) (by omega)
    simp [List.countP_cons, hie, hvb, hvc, hEm, hmE] at hnone
  · have hva : cellAt brd a = m := hall a (by simp) (by omega)
    have hvc : cellAt brd c = m := hall c (by simp) (by omega)
    simp [List.countP_cons, hie, hva, hvc, hEm, hmE] at hnone
  · have hva : cellAt brd a = m := hall a (by simp) (by omega)
    have hvb : cellAt brd b = m := hall b (by simp) (by omega)
    simp [List.countP_cons, hie, hva, hvb, hEm, hmE] at hnone

theorem findWinningMove_some (brd : Board) (m : Cell) (hm : m ≠ Cell.E)
    (i : Nat) (h : HeuristicAI.findWinningMove brd m = some i) :
    cellAt brd i = Cell.E ∧ ∃ t ∈ winConditions, i ∈ t ∧
      ∀ j ∈ t, j ≠ i → cellAt brd j = m := by
  rcases List.findSome?_eq_some_iff.mp h with ⟨l₁, t, l₂, heq, hft, _⟩
  have ht : t ∈ winConditions := by rw [heq]; simp
  have ht8 : t = [0, 1, 2] ∨ t = [3, 4, 5] ∨ t = [6, 7, 8] ∨ t = [0, 3, 6] ∨
      t = [1, 4, 7] ∨ t = [2, 5, 8] ∨ t = [0, 4, 8] ∨ t = [2, 4, 6] := by
    simpa [winConditions] using ht
  clear heq h
  rcases ht8 with rfl | rfl | rfl | rfl | rfl | rfl | rfl | rfl <;>
    · obtain ⟨hie, hmem, hall⟩ := tripleCheck_some brd m hm _ _ _ i hft
      exact ⟨hie, _, ht, hmem, hall⟩

theorem findWinningMove_none (brd : Board) (m : Cell) (hm : m ≠ Cell.E)
    (h : HeuristicAI.findWinningMove brd m = none) :
    ∀ i, cellAt brd i = Cell.E → ∀ t ∈ winConditions, i ∈ t →
      ¬ ∀ j ∈ t, j ≠ i → cellAt brd j = m := by
  intro i hie t ht hit hall
  have hfnone := List.findSome?_eq_none_iff.mp h t ht
  have ht8 : t = [0, 1, 2] ∨ t = [3, 4, 5] ∨ t = [6, 7, 8] ∨ t = [0, 3, 6] ∨
      t = [1, 4, 7] ∨ t = [2, 5, 8] ∨ t = [0, 4, 8] ∨ t = [2, 4, 6] := by
    simpa [winConditions] using ht
  rcases ht8 with rfl | rfl | rfl | rfl | rfl | rfl | rfl | rfl <;>
    exact tripleCheck_none brd m hm _ _ _ i hfnone (by decide) (by decide)
      (by decide) hit hie hall

theorem winConditions_mem_lt : ∀ t ∈ winConditions, ∀ j ∈ t, j < 9 := by
  decide

theorem getD_mem_of_lt (l : List Nat) (k : Nat) (hk : k < l.length) :
    l.getD k 0 ∈ l := by
  rw [List.getD_eq_getElem l 0 hk]
  exact List.getElem_mem hk

/-- C4: For every board, the heuristic selector `HeuristicAI.getBestMove`
follows the priority chain: it returns an empty index completing a
winning triple for the computer marker if one exists; else an empty index
completing a winning triple for the opponent marker (a block); else index
4 when cell 4 is empty; else some empty corner from 0, 2, 6, 8; else some
empty edge from 1, 3, 5, 7; and it returns the no-move signal `none` if
and only if the board has no empty cell among indices 0..8.  The random
pick `Math.floor(Math.random() * length)` is modeled by the injected
`randIdx`, assumed to return an index below its argument. -/
theorem heuristic_priority_chain (randIdx : Nat → Nat)
    (hrand : ∀ n, 0 < n → randIdx n < n) (b : Board) (cm pm : Cell)
    (hcm : cm ≠ Cell.E) (hpm : pm ≠ Cell.E) (hne : cm ≠ pm) :
    ((∃ i, i < 9 ∧ cellAt b i = Cell.E ∧ ∃ t ∈ winConditions, i ∈ t ∧
        ∀ j ∈ t, j ≠ i → cellAt b j = cm) →
      (∃ i, HeuristicAI.getBestMove randIdx b cm pm = some i ∧ i < 9 ∧
        cellAt b i = Cell.E ∧ ∃ t ∈ winConditions, i ∈ t ∧
          ∀ j ∈ t, j ≠ i → cellAt b j = cm)) ∧
    ((¬ ∃ i, i < 9 ∧ cellAt b i = Cell.E ∧ ∃ t ∈ winConditions, i ∈ t ∧
        ∀ j ∈ t, j ≠ i → cellAt b j = cm) →
      (∃ i, i < 9 ∧ cellAt b i = Cell.E ∧ ∃ t ∈ winConditions, i ∈ t ∧
        ∀ j ∈ t, j ≠ i → cellAt b j = pm) →
      (∃ i, HeuristicAI.getBestMove randIdx b cm pm = some i ∧ i < 9 ∧
        cellAt b i = Cell.E ∧ ∃ t ∈ winConditions, i ∈ t ∧
          ∀ j ∈ t, j ≠ i → cellAt b j = pm)) ∧
    ((¬ ∃ i, i < 9 ∧ cellAt b i = Cell.E ∧ ∃ t ∈ winConditions, i ∈ t ∧
        ∀ j ∈ t, j ≠ i → cellAt b j = cm) →
      (¬ ∃ i, i < 9 ∧ cellAt b i = Cell.E ∧ ∃ t ∈ winConditions, i ∈ t ∧
        ∀ j ∈ t, j ≠ i → cellAt b j = pm) →
      cellAt b 4 = Cell.E →
      HeuristicAI.getBestMove randIdx b cm pm = some 4) ∧
    ((¬ ∃ i, i < 9 ∧ cellAt b i = Cell.E ∧ ∃ t ∈ winConditions, i ∈ t ∧
        ∀ j ∈ t, j ≠ i → cellAt b j = cm) →
      (¬ ∃ i, i < 9 ∧ cellAt b i = Cell.E ∧ ∃ t ∈ winConditions, i ∈ t ∧
        ∀ j ∈ t, j ≠ i → cellAt b j = pm) →
      cellAt b 4 ≠ Cell.E →
      (∃ i, i ∈ ([0, 2, 6, 8] : List Nat) ∧ cellAt b i = Cell.E) →
      (∃ i, i ∈ ([0, 2, 6, 8] : List Nat) ∧ cellAt b i = Cell.E ∧
        HeuristicAI.getBestMove randIdx b cm pm = some i)) ∧
    ((¬ ∃ i, i < 9 ∧ cellAt b i = Cell.E ∧ ∃ t ∈ winConditions, i ∈ t ∧
        ∀ j ∈ t, j ≠ i → cellAt b j = cm) →
      (¬ ∃ i, i < 9 ∧ cellAt b i = Cell.E ∧ ∃ t ∈ winConditions, i ∈ t ∧
        ∀ j ∈ t, j ≠ i → cellAt b j = pm) →
      cellAt b 4 ≠ Cell.E →
      (∀ i ∈ ([0, 2, 6, 8] : List Nat), cellAt b i ≠ Cell.E) →
      (∃ i, i ∈ ([1, 3, 5, 7] : List Nat) ∧ cellAt b i = Cell.E) →
      (∃ i, i ∈ ([1, 3, 5, 7] : List Nat) ∧ cellAt b i = Cell.E ∧
        HeuristicAI.getBestMove randIdx b cm pm = some i)) ∧
    (HeuristicAI.getBestMove randIdx b cm pm = none ↔
      ∀ i, i < 9 → cellAt b i ≠ Cell.E) := by
  have hnone_of_no_completion : ∀ m : Cell, m ≠ Cell.E →
      (¬ ∃ i, i < 9 ∧ cellAt b i = Cell.E ∧ ∃ t ∈ winConditions, i ∈ t ∧
        ∀ j ∈ t, j ≠ i → cellAt b j = m) →
      HeuristicAI.findWinningMove b m = none := by
    intro m hm hno
    cases hf : HeuristicAI.findWinningMove b m with
    | none => rfl
    | some mv =>
      exfalso
      obtain ⟨hie, t, ht, hmem, hall⟩ := findWinningMove_some b m hm mv hf
      exact hno ⟨mv, winConditions_mem_lt t ht mv hmem, hie, t, ht, hmem, hall⟩
  refine ⟨?_, ?_, ?_, ?_, ?_, ?_⟩
  · -- priority 1: take the win
    rintro ⟨i, hi9, hie, t, ht, hmem, hall⟩
    cases hf : HeuristicAI.findWinningMove b cm with
    | none =>
      exact absurd (findWinningMove_none b cm hcm hf i hie t ht hmem)
        (by simpa using hall)
    | some mv =>
      obtain ⟨hie', t', ht', hmem', hall'⟩ := findWinningMove_some b cm hcm mv hf
      exact ⟨mv, by simp [HeuristicAI.getBestMove, hf],
        winConditions_mem_lt t' ht' mv hmem', hie', t', ht', hmem', hall'⟩
  · -- priority 2: block
    intro hnocm
    rintro ⟨i, hi9, hie, t, ht, hmem, hall⟩
    have hfcm := hnone_of_no_completion cm hcm hnocm
    cases hf : HeuristicAI.findWinningMove b pm with
    | none =>
      exact absurd (findWinningMove_none b pm hpm hf i hie t ht hmem)
        (by simpa using hall)
    | some mv =>
      obtain ⟨hie', t', ht', hmem', hall'⟩ := findWinningMove_some b pm hpm mv hf
      exact ⟨mv, by simp [HeuristicAI.getBestMove, hfcm, hf],
        winConditions_mem_lt t' ht' mv hmem', hie', t', ht', hmem', hall'⟩
  · -- priority 3: center
    intro hnocm hnopm h4
    have hfcm := hnone_of_no_completion cm hcm hnocm
    have hfpm := hnone_of_no_completion pm hpm hnopm
    simp [HeuristicAI.getBestMove, hfcm, hfpm, h4]
  · -- priority 4: corner
    intro hnocm hnopm h4
    rintro ⟨i, hic, hie⟩
    have hfcm := hnone_of_no_completion cm hcm hnocm
    have hfpm := hnone_of_no_completion pm hpm hnopm
    have hmemf : i ∈ ([0, 2, 6, 8] : List Nat).filter
        fun index => cellAt b index == Cell.E :=
      List.mem_filter.mpr ⟨hic, by simp [hie]⟩
    have hposf : 0 < (([0, 2, 6, 8] : List Nat).filter
        fun index => cellAt b index == Cell.E).length :=
      List.length_pos.mpr (by intro hnil; rw [hnil] at hmemf; simp at hmemf)
    have hkf := hrand _ hposf
    have hpick := getD_mem_of_lt _ _ hkf
    rcases List.mem_filter.mp hpick with ⟨hpc, hpe⟩
    refine ⟨_, hpc, by simpa using hpe, ?_⟩
    simp [HeuristicAI.getBestMove, hfcm, hfpm, h4, hposf]
  · -- priority 5: edge
    intro hnocm hnopm h4 hnocorner
    rintro ⟨i, hic, hie⟩
    have hfcm := hnone_of_no_completion cm hcm hnocm
    have hfpm := hnone_of_no_completion pm hpm hnopm
    have hcornernil : (([0, 2, 6, 8] : List Nat).filter
        fun index => cellAt b index == Cell.E) = [] := by
      rw [List.filter_eq_nil_iff]
      intro a ha
      simp [hnocorner a ha]
    have hmemf : i ∈ ([1, 3, 5, 7] : List Nat).filter
        fun index => cellAt b index == Cell.E :=
      List.mem_filter.mpr ⟨hic, by simp [hie]⟩
    have hposf : 0 < (([1, 3, 5, 7] : List Nat).filter
        fun index => cellAt b index == Cell.E).length :=
      List.length_pos.mpr (by intro hnil; rw [hnil] at hmemf; simp at hmemf)
    have hkf := hrand _ hposf
    have hpick := getD_mem_of_lt _ _ hkf
    rcases List.mem_filter.mp hpick with ⟨hpc, hpe⟩
    refine ⟨_, hpc, by simpa using hpe, ?_⟩
    simp [HeuristicAI.getBestMove, hfcm, hfpm, h4, hcornernil, hposf]
  · -- none iff board full
    constructor
    · intro hres
      simp only [HeuristicAI.getBestMove] at hres
      cases hf1 : HeuristicAI.findWinningMove b cm with
      | some mv => rw [hf1] at hres; simp at hres
      | none =>
      rw [hf1] at hres
      cases hf2 : HeuristicAI.findWinningMove b pm with
      | some mv => rw [hf2] at hres; simp at hres
      | none =>
      rw [hf2] at hres
      simp only [] at hres
      by_cases h4 : (cellAt b 4 == Cell.E) = true
      · rw [h4] at hres; simp at hres
      · rw [Bool.not_eq_true] at h4
        rw [h4] at hres
        simp only [Bool.false_eq_true, if_false] at hres
        by_cases hc : 0 < (([0, 2, 6, 8] : List Nat).filter
            fun index => cellAt b index == Cell.E).length
        · simp [hc] at hres
        · by_cases he : 0 < (([1, 3, 5, 7] : List Nat).filter
              fun index => cellAt b index == Cell.E).length
          · simp [hc, he] at hres
          · have hcnil : (([0, 2, 6, 8] : List Nat).filter
                fun index => cellAt b index == Cell.E) = [] :=
              List.length_eq_zero.mp (by omega)
            have henil : (([1, 3, 5, 7] : List Nat).filter
                fun index => cellAt b index == Cell.E) = [] :=
              List.length_eq_zero.mp (by omega)
            have hcall := List.filter_eq_nil_iff.mp hcnil
            have heall := List.filter_eq_nil_iff.mp henil
            intro i hi9 hie
            interval_cases i
            · exact hcall 0 (by simp) (by simp [hie])
            · exact heall 1 (by simp) (by simp [hie])
            · exact hcall 2 (by simp) (by simp [hie])
            · exact heall 3 (by simp) (by simp [hie])
            · exact absurd hie (by simpa using h4)
            · exact heall 5 (by simp) (by simp [hie])
            · exact hcall 6 (by simp) (by simp [hie])
            · exact heall 7 (by simp) (by simp [hie])
            · exact hcall 8 (by simp) (by simp [hie])
    · intro hempty
      have hfcm : HeuristicAI.findWinningMove b cm = none := by
        cases hf : HeuristicAI.findWinningMove b cm with
        | none => rfl
        | some mv =>
          obtain ⟨hie, t, ht, hmem, _⟩ := findWinningMove_some b cm hcm mv hf
          exact absurd hie (hempty mv (winConditions_mem_lt t ht mv hmem))
      have hfpm : HeuristicAI.findWinningMove b pm = none := by
        cases hf : HeuristicAI.findWinningMove b pm with
        | none => rfl
        | some mv =>
          obtain ⟨hie, t, ht, hmem, _⟩ := findWinningMove_some b pm hpm mv hf
          exact absurd hie (hempty mv (winConditions_mem_lt t ht mv hmem))
      have h4 : (cellAt b 4 == Cell.E) = false := by
        simp [hempty 4 (by omega)]
      have hcnil : (([0, 2, 6, 8] : List Nat).filter
          fun index => cellAt b index == Cell.E) = [] := by
        rw [List.filter_eq_nil_iff]
        intro a ha
        have : a < 9 := by
          rcases (by simpa using ha : a = 0 ∨ a = 2 ∨ a = 6 ∨ a = 8)
            with rfl | rfl | rfl | rfl <;> omega
        simp [hempty a this]
      have henil : (([1, 3, 5, 7] : List Nat).filter
          fun index => cellAt b index == Cell.E) = [] := by
        rw [List.filter_eq_nil_iff]
        intro a ha
        have : a < 9 := by
          rcases (by simpa using ha : a = 1 ∨ a = 3 ∨ a = 5 ∨ a = 7)
            with rfl | rfl | rfl | rfl <;> omega
        simp [hempty a this]
      simp [HeuristicAI.getBestMove, hfcm, hfpm, h4, hcnil, henil]

theorem heuristic_priority_chain_witness :
    HeuristicAI.getBestMove (fun _ => 0) emptyBoard Cell.O Cell.X
      = some 4 :=
  (heuristic_priority_chain (fun _ => 0) (fun _ hn => hn) emptyBoard
    Cell.O Cell.X (by decide) (by decide) (by decide)).2.2.1
    (by decide) (by decide) rfl

/-! ### The game state machine -/

theorem cellAt_set_self (b : Board) (k : Nat) (m : Cell) (hk : k < b.length) :
    cellAt (b.set k m) k = m := by
  simp [cellAt, List.getD_eq_getElem?_getD, List.getElem?_set_self hk]

/-- C8: `Gameboard.setCell(index, marker)` writes the marker and returns
the success indicator `true` exactly when `0 <= index < 9` and the cell
at `index` is currently empty; in every other case it returns `false`
and leaves the board unchanged. -/
theorem setCell_spec (b : Board) (hb : b.length = 9) (index : Int)
    (marker : Cell) :
    ((Gameboard.setCell b index marker).1 = true ↔
      (0 ≤ index ∧ index < 9 ∧ cellAt b index.toNat = Cell.E)) ∧
    (0 ≤ index ∧ index < 9 ∧ cellAt b index.toNat = Cell.E →
      (Gameboard.setCell b index marker).2 = b.set index.toNat marker ∧
      cellAt (Gameboard.setCell b index marker).2 index.toNat = marker) ∧
    (¬(0 ≤ index ∧ index < 9 ∧ cellAt b index.toNat = Cell.E) →
      (Gameboard.setCell b index marker).2 = b) := by
  refine ⟨?_, ?_, ?_⟩
  · constructor
    · intro h
      by_contra hc
      simp [Gameboard.setCell, hc] at h
    · intro h
      simp [Gameboard.setCell, h]
  · intro h
    have hk : index.toNat < b.length := by
      rw [hb]; omega
    simp [Gameboard.setCell, h, cellAt_set_self b index.toNat marker hk]
  · intro h
    simp [Gameboard.setCell, h]

theorem setCell_spec_witness :
    ((Gameboard.setCell emptyBoard 3 Cell.X).1 = true ↔
      (0 ≤ (3 : Int) ∧ (3 : Int) < 9 ∧
        cellAt emptyBoard (3 : Int).toNat = Cell.E)) ∧
    (0 ≤ (3 : Int) ∧ (3 : Int) < 9 ∧
        cellAt emptyBoard (3 : Int).toNat = Cell.E →
      (Gameboard.setCell emptyBoard 3 Cell.X).2
          = emptyBoard.set (3 : Int).toNat Cell.X ∧
      cellAt (Gameboard.setCell emptyBoard 3 Cell.X).2 (3 : Int).toNat
          = Cell.X) ∧
    (¬(0 ≤ (3 : Int) ∧ (3 : Int) < 9 ∧
        cellAt emptyBoard (3 : Int).toNat = Cell.E) →
      (Gameboard.setCell emptyBoard 3 Cell.X).2 = emptyBoard) :=
  setCell_spec emptyBoard rfl 3 Cell.X

/-- C10: For every index outside 0..8 and every in-progress game state,
`makeMove(index)` fails with the occupied-cell message and leaves the
state unchanged: `getCell` returns the `null` sentinel for an
out-of-range index, and `null` is not the empty string, so the occupied
branch is taken. -/
theorem makeMove_out_of_range (s : GameState) (index : Int)
    (hgo : s.gameOver = false) (hout : index < 0 ∨ 9 ≤ index) :
    GameController.makeMove s index
      = (MoveResult.mk false (some "Cell is already taken!") none none, s)
      := by
  have hget : Gameboard.getCell s.board index = none := by
    simp only [Gameboard.getCell]
    rw [if_neg]
    omega
  simp [GameController.makeMove, hgo, hget]

theorem makeMove_out_of_range_witness :
    GameController.makeMove (GameController.initGame "A" "B" false) (-1)
      = (MoveResult.mk false (some "Cell is already taken!") none none,
         GameController.initGame "A" "B" false) :=
  makeMove_out_of_range _ (-1) rfl (by omega)

/-- C6: When `makeMove` is called while the game is over, or with a
target cell that is not empty, it returns a result with `success = false`
and leaves the board, the current player, the game-over flag and the
winner unchanged; the game-over check is performed before the
occupied-cell check, so a finished game always reports the game-over
message even on an occupied cell. -/
theorem makeMove_failure_atomic (s : GameState) (index : Int) :
    (s.gameOver = true →
      GameController.makeMove s index
        = (MoveResult.mk false (some "Game is over!") none none, s)) ∧
    (s.gameOver = false → Gameboard.getCell s.board index ≠ some Cell.E →
      GameController.makeMove s index
        = (MoveResult.mk false (some "Cell is already taken!") none none,
           s)) ∧
    (∀ r s', GameController.makeMove s index = (r, s') →
      r.success = false →
      s'.board = s.board ∧ s'.currentPlayer = s.currentPlayer ∧
        s'.gameOver = s.gameOver ∧ s'.winner = s.winner) := by
  refine ⟨?_, ?_, ?_⟩
  · intro hgo
    simp [GameController.makeMove, hgo]
  · intro hgo hcell
    simp [GameController.makeMove, hgo, hcell]
  · intro r s' hmk hfail
    cases hgo : s.gameOver
    · cases hcell : (Gameboard.getCell s.board index != some Cell.E)
      · have hcell' : Gameboard.getCell s.board index = some Cell.E := by
          simpa using hcell
        simp only [GameController.makeMove, hgo, Bool.false_eq_true,
          if_false, hcell', bne_self_eq_false] at hmk
        split_ifs at hmk <;>
          · injection hmk with h1 h2
            rw [← h1] at hfail
            simp at hfail
      · have hcell' : Gameboard.getCell s.board index ≠ some Cell.E := by
          simpa using hcell
        rw [(by simp [GameController.makeMove, hgo, hcell'] :
          GameController.makeMove s index
            = (MoveResult.mk false (some "Cell is already taken!") none none,
               s))] at hmk
        injection hmk with h1 h2
        subst h2
        exact ⟨rfl, rfl, hgo, rfl⟩
    · rw [(by simp [GameController.makeMove, hgo] :
        GameController.makeMove s index
          = (MoveResult.mk false (some "Game is over!") none none, s))]
        at hmk
      injection hmk with h1 h2
      subst h2
      exact ⟨rfl, rfl, hgo, rfl⟩

theorem makeMove_failure_atomic_witness :
    GameController.makeMove
      { GameController.initGame "A" "B" false with gameOver := true } 0
      = (MoveResult.mk false (some "Game is over!") none none,
         { GameController.initGame "A" "B" false with gameOver := true }) :=
  (makeMove_failure_atomic
    { GameController.initGame "A" "B" false with gameOver := true } 0).1 rfl

/-- C9 counterexample: in a fresh versus-computer game it is player 1's
turn, so `makeComputerMove` fails, but the result carries no reason at
all: the source returns a bare failure object, not the reason
"not computer's turn" promised by the specification. -/
theorem makeComputerMove_missing_reason :
    GameController.makeComputerMove (GameController.initGame "A" "B" true)
      = (MoveResult.mk false none none none,
         GameController.initGame "A" "B" true) := by
  rfl

/-- C9 (amended): every failing `makeMove` result carries a reason, and
it is "Game is over!" or "Cell is already taken!"; `makeComputerMove`
called when it is not the computer's turn, or when the game is over,
fails with the bare result `{ success := false }` carrying no reason. -/
theorem failure_reasons (s : GameState) (index : Int) :
    (∀ r s', GameController.makeMove s index = (r, s') →
      r.success = false →
      r.message = some "Game is over!" ∨
        r.message = some "Cell is already taken!") ∧
    (¬ GameController.isComputerTurn s ∨ s.gameOver = true →
      GameController.makeComputerMove s
        = (MoveResult.mk false none none none, s)) := by
  constructor
  · intro r s' hmk hfail
    simp only [GameController.makeMove] at hmk
    split_ifs at hmk <;> injection hmk with h1 h2
    · rw [← h1]
      left
      rfl
    · rw [← h1]
      right
      rfl
    · rw [← h1] at hfail
      simp at hfail
    · rw [← h1] at hfail
      simp at hfail
    · rw [← h1] at hfail
      simp at hfail
  · intro h
    unfold GameController.makeComputerMove
    rw [if_pos]
    rcases h with h | h
    · exact Or.inl h
    · exact Or.inr h

theorem failure_reasons_witness :
    GameController.makeComputerMove (GameController.initGame "A" "B" false)
      = (MoveResult.mk false none none none,
         GameController.initGame "A" "B" false) :=
  (failure_reasons (GameController.initGame "A" "B" false) 0).2
    (Or.inl (by decide))

/-- A step of `makeMove` never changes the two player records, and the
current player either stays (failures and game-ending moves) or becomes
the other player (via `switchPlayer`). -/
theorem makeMove_players (s : GameState) (index : Int) :
    (GameController.makeMove s index).2.player1 = s.player1 ∧
    (GameController.makeMove s index).2.player2 = s.player2 ∧
    ((GameController.makeMove s index).2.currentPlayer = s.currentPlayer ∨
     (GameController.makeMove s index).2.currentPlayer =
       (if s.currentPlayer = s.player1 then s.player2 else s.player1)) := by
  simp only [GameController.makeMove, GameController.switchPlayer]
  split_ifs <;> simp

/-- Invariant preserved by every sequence of successful moves: the player
records are those of the initial state and the current player is one of
the two players. -/
theorem runMoves_inv (moves : List Int) : ∀ s₀ s : GameState,
    GameController.runMoves s₀ moves = some s →
    (s₀.currentPlayer = s₀.player1 ∨ s₀.currentPlayer = s₀.player2) →
    s.player1 = s₀.player1 ∧ s.player2 = s₀.player2 ∧
      (s.currentPlayer = s.player1 ∨ s.currentPlayer = s.player2) := by
  induction moves with
  | nil =>
    intro s₀ s hrun hcp
    simp only [GameController.runMoves, Option.some.injEq] at hrun
    subst hrun
    exact ⟨rfl, rfl, hcp⟩
  | cons i rest ih =>
    intro s₀ s hrun hcp
    simp only [GameController.runMoves] at hrun
    rcases Bool.dichotomy (GameController.makeMove s₀ i).1.success with
      hsucc | hsucc
    · rw [if_neg (by simp [hsucc])] at hrun
      cases hrun
    · rw [if_pos hsucc] at hrun
      obtain ⟨hp1, hp2, hcur⟩ := makeMove_players s₀ i
      have hstep : (GameController.makeMove s₀ i).2.currentPlayer
          = (GameController.makeMove s₀ i).2.player1 ∨
          (GameController.makeMove s₀ i).2.currentPlayer
          = (GameController.makeMove s₀ i).2.player2 := by
        rw [hp1, hp2]
        rcases hcur with hc | hc
        · rw [hc]
          exact hcp
        · rw [hc]
          rcases Classical.em (s₀.currentPlayer = s₀.player1) with h | h
          · rw [if_pos h]
            exact Or.inr rfl
          · rw [if_neg h]
            exact Or.inl rfl
      obtain ⟨h1, h2, h3⟩ := ih _ s hrun hstep
      exact ⟨h1.trans hp1, h2.trans hp2, h3⟩

/-- C7: For every sequence of successful `makeMove` calls after
`initialize`, the resulting state is in exactly one of the phases
in-progress (`gameOver = false`) or over (`gameOver = true`); the game
starts with player 1 as the current player; the current player is always
one of the two players; and on every further successful move that does
not end the game the current player strictly alternates: it was player 1
iff it becomes player 2, and it was player 2 iff it becomes player 1. -/
theorem state_machine_alternation (name1 name2 : String) (vs : Bool)
    (moves : List Int) (s : GameState)
    (hrun : GameController.runMoves (GameController.initGame name1 name2 vs)
      moves = some s) :
    ((s.gameOver = false ∨ s.gameOver = true) ∧
      ¬ (s.gameOver = false ∧ s.gameOver = true)) ∧
    (GameController.initGame name1 name2 vs).currentPlayer
      = (GameController.initGame name1 name2 vs).player1 ∧
    (s.currentPlayer = s.player1 ∨ s.currentPlayer = s.player2) ∧
    (∀ index r s', GameController.makeMove s index = (r, s') →
      r.success = true → s'.gameOver = false →
      ((s.currentPlayer = s.player1 ↔ s'.currentPlayer = s.player2) ∧
       (s.currentPlayer = s.player2 ↔ s'.currentPlayer = s.player1))) := by
  obtain ⟨hp1, hp2, hcp⟩ := runMoves_inv moves _ s hrun (Or.inl rfl)
  have hm1 : s.player1.marker = Cell.X := by
    rw [hp1]
    simp [GameController.initGame]
  have hm2 : s.player2.marker = Cell.O := by
    rw [hp2]
    simp only [GameController.initGame]
    split_ifs <;> rfl
  have hne : s.player1 ≠ s.player2 := by
    intro h
    rw [h, hm2] at hm1
    cases hm1
  refine ⟨⟨?_, ?_⟩, rfl, hcp, ?_⟩
  · rcases Bool.dichotomy s.gameOver with h | h
    · exact Or.inl h
    · exact Or.inr h
  · rintro ⟨h0, h1⟩
    rw [h0] at h1
    cases h1
  · intro index r s' hmk hsucc hgo'
    rcases Bool.dichotomy s.gameOver with hgo | hgo
    · have hcur : s'.currentPlayer =
          (if s.currentPlayer = s.player1 then s.player2 else s.player1)
          := by
        simp only [GameController.makeMove, hgo, Bool.false_eq_true,
          if_false] at hmk
        split_ifs at hmk with h1 h2 h3 <;> injection hmk with ha hb
        · rw [← ha] at hsucc
          cases hsucc
        · rw [← hb] at hgo'
          cases hgo'
        · rw [← hb] at hgo'
          cases hgo'
        · rw [← hb]
          simp [GameController.switchPlayer]
      constructor
      · constructor
        · intro h
          rw [hcur, if_pos h]
        · intro h
          rcases Classical.em (s.currentPlayer = s.player1) with hx | hx
          · exact hx
          · exfalso
            rw [hcur, if_neg hx] at h
            exact hne h
      · constructor
        · intro h
          have hx : ¬ s.currentPlayer = s.player1 := by
            intro hx
            exact hne (by rw [← hx, h])
          rw [hcur, if_neg hx]
        · intro h
          rcases hcp with hc | hc
          · exfalso
            rw [hcur, if_pos hc] at h
            exact hne h.symm
          · exact hc
    · exfalso
      simp only [GameController.makeMove, hgo, if_true] at hmk
      injection hmk with ha hb
      rw [← ha] at hsucc
      cases hsucc

theorem state_machine_alternation_witness :
    (GameController.initGame "A" "B" false).currentPlayer
      = (GameController.initGame "A" "B" false).player1 ∧
    ((GameController.initGame "A" "B" false).currentPlayer
        = (GameController.initGame "A" "B" false).player1 ∨
      (GameController.initGame "A" "B" false).currentPlayer
        = (GameController.initGame "A" "B" false).player2) :=
  ⟨(state_machine_alternation "A" "B" false []
      (GameController.initGame "A" "B" false) rfl).2.1,
   (state_machine_alternation "A" "B" false []
      (GameController.initGame "A" "B" false) rfl).2.2.1⟩

end TTT
